import Mathlib

/-!
Verification of the ExcelOps tool's transformation pipeline.

This file embeds the data model and the pipeline engines of the tool
(`filters.py`, `sorts.py`, `columns_manager.py`, `vlookup_helper.py`,
`presets.py`, `automation/automation_runner.py`) as executable Lean
definitions, and proves or refutes the specification claims about them.

Modelling conventions:
* A pandas DataFrame is a list of column names together with a list of rows;
  each row is a list of cell values.
* A cell value is a string, an exact rational number, or null (pandas NaN).
  Rationals stand in for Python floats; all concrete inputs used in the
  theorems below are exactly representable, so no rounding behaviour is lost.
* `astype(str)` of a null cell is modelled as the string "nan" (the pandas
  rendering of a float NaN); numeric cells with integer value render without
  a decimal point (the int-dtype rendering).
* Python exceptions escaping an engine are modelled with `Except String`.
* Number parsing (`float(...)` and `pd.to_numeric`) is modelled for plain
  decimal literals (optional sign, digits, optional fractional part);
  exotic forms (exponents, inf/nan words, underscores) are outside the model.
-/

namespace ExcelOps

/-- A cell value: string, exact number, or null (pandas NaN). -/
inductive Value where
  | str (s : String)
  | num (q : Rat)
  | null
deriving DecidableEq, Repr

/-- A dataset: ordered column names and ordered rows of cells. -/
structure DataFrame where
  cols : List String
  rows : List (List Value)
deriving DecidableEq, Repr

/-- pandas `df.empty`: true when either axis has length zero. -/
def DataFrame.isEmptyDf (df : DataFrame) : Bool :=
  df.rows.isEmpty || df.cols.isEmpty

/-- Position of the first column named `c` (pandas label lookup). -/
def colIndex? (c : String) : List String → Option Nat
  | [] => none
  | a :: l => if a = c then some 0 else (colIndex? c l).map (· + 1)

/-- Cell of a row at the column position named `c` (null when absent). -/
def cellOf (cols : List String) (r : List Value) (c : String) : Value :=
  match colIndex? c cols with
  | some i => (r.get? i).getD Value.null
  | none => Value.null

/-- The column named `c` of a dataset, as a list of cells (pandas `df[c]`). -/
def DataFrame.colVals (df : DataFrame) (c : String) : List Value :=
  df.rows.map (fun r => cellOf df.cols r c)

/-- pandas `astype(str)` on one cell.  Strings are unchanged, NaN renders as
"nan"; integral numbers render as plain integers (int dtype). -/
def castStr : Value → String
  | .str s => s
  | .num q => if q.den = 1 then toString q.num else toString q
  | .null => "nan"

/-- Python `str.strip()`: remove leading and trailing whitespace. -/
def strTrim (s : String) : String :=
  String.mk (((s.toList.dropWhile Char.isWhitespace).reverse.dropWhile Char.isWhitespace).reverse)

/-- Python `str.lower()` (ASCII case folding). -/
def strLower (s : String) : String :=
  String.mk (s.toList.map Char.toLower)

/-- Python `str.split(sep)` core on character lists. -/
def splitOnCharAux (sep : Char) : List Char → List (List Char)
  | [] => [[]]
  | c :: rest =>
    let r := splitOnCharAux sep rest
    if c = sep then [] :: r
    else
      match r with
      | h :: t => (c :: h) :: t
      | [] => [[c]]

/-- Python `str.split(",")`. -/
def strSplitComma (s : String) : List String :=
  (splitOnCharAux ',' s.toList).map String.mk

/-- Python `str.startswith(p)`. -/
def strStartsWith (p s : String) : Bool :=
  List.isPrefixOf p.toList s.toList

/-- Python slicing `s[:n]` (by characters). -/
def strTake (n : Nat) (s : String) : String :=
  String.mk (s.toList.take n)

/-- Exact rational addition, via `mkRat` (the kernel-evaluable model of
Python's arithmetic on exact values). -/
def ratAdd (a b : Rat) : Rat :=
  mkRat (a.num * (b.den : Int) + b.num * (a.den : Int)) (a.den * b.den)

/-- Exact rational division, via `mkRat` (0 when dividing by 0). -/
def ratDiv (a b : Rat) : Rat :=
  if 0 ≤ b.num then mkRat (a.num * (b.den : Int)) (a.den * b.num.toNat)
  else mkRat (-(a.num * (b.den : Int))) (a.den * (-b.num).toNat)

/-- Digits of a decimal literal, as a natural number. -/
def digitsToNat (cs : List Char) : Nat :=
  cs.foldl (fun a c => a * 10 + (c.toNat - '0'.toNat)) 0

/-- Parse an unsigned decimal literal (`123`, `1.5`, `.5`, `1.`). -/
def parseUnsigned (cs : List Char) : Option Rat :=
  let intPart := cs.takeWhile Char.isDigit
  let rest := cs.dropWhile Char.isDigit
  match rest with
  | [] => if intPart.isEmpty then none else some ((digitsToNat intPart : Int) : Rat)
  | '.' :: frac =>
      if (intPart.isEmpty && frac.isEmpty) || !(frac.all Char.isDigit) then none
      else some (ratAdd ((digitsToNat intPart : Int) : Rat)
              (ratDiv ((digitsToNat frac : Int) : Rat) ((10 ^ frac.length : Nat) : Rat)))
  | _ => none

/-- Model of Python `float(s)` / `pd.to_numeric` on a single string: plain
decimal literals with optional sign, surrounding whitespace ignored;
everything else fails (`None` models the raised `ValueError` / NaN). -/
def parseRat? (s : String) : Option Rat :=
  match (strTrim s).toList with
  | '+' :: cs => parseUnsigned cs
  | '-' :: cs => (parseUnsigned cs).map Neg.neg
  | cs => parseUnsigned cs

/-- `_clean_numeric_series` on one cell: cast to string, strip, remove all
`%` and `,` characters, then parse as a number (`None` is NaN). -/
def cleanNumeric (v : Value) : Option Rat :=
  parseRat? (String.mk ((strTrim (castStr v)).toList.filter (fun c => c ≠ '%' ∧ c ≠ ',')))

/-- The keys of the `OPS` operator table in `filters.py`. -/
def OPS : List String := ["==", "!=", ">", "<", ">=", "<="]

/-- `COLUMN_OPS` in `filters.py`. -/
def COLUMN_OPS : List String := ["== Column", "!= Column"]

/-- Evaluate a relational operator from `OPS` on two rationals. -/
def opEvalRat (op : String) (x y : Rat) : Bool :=
  if op = "==" then x = y
  else if op = "!=" then x ≠ y
  else if op = ">" then y < x
  else if op = "<" then x < y
  else if op = ">=" then y ≤ x
  else x ≤ y

/-- Elementwise numeric comparison with pandas NaN semantics: any comparison
involving NaN is false, except `!=` which is true. -/
def opEvalOptRat (op : String) (x y : Option Rat) : Bool :=
  match x, y with
  | some a, some b => opEvalRat op a b
  | _, _ => op = "!="

/-- Evaluate a relational operator from `OPS` on two strings
(Python's lexicographic string order by code point, which is exactly the
lexicographic order of the character lists). -/
def opEvalStr (op : String) (x y : String) : Bool :=
  if op = "==" then x = y
  else if op = "!=" then x ≠ y
  else if op = ">" then y.data < x.data
  else if op = "<" then x.data < y.data
  else if op = ">=" then ¬ (x.data < y.data)
  else ¬ (y.data < x.data)

/-- Regex search over lists of characters, for patterns whose only
metacharacter is `.` (any single character); matches at the head. -/
def patHere : List Char → List Char → Bool
  | [], _ => true
  | _ :: _, [] => false
  | p :: ps, c :: cs => (p = '.' || p = c) && patHere ps cs

/-- Model of Python `re.search` (as used by `pandas.Series.str.contains`
with `regex=True`, the default) for patterns whose only metacharacter is
`.`: does the pattern match at any position of the text? -/
def reSearch (pat txt : String) : Bool :=
  let ps := pat.toList
  (List.range (txt.toList.length + 1)).any (fun i => patHere ps (txt.toList.drop i))

/-- A filter row, as produced by `FiltersFrame.get_config`. -/
structure FilterRow where
  join : String
  col : String
  op : String
  val : String
  cmp : String
deriving DecidableEq, Repr

/-- pandas `Series.mean()` over the normalized column: ignores NaN; `none`
(NaN) when every entry is NaN. -/
def meanOpt (xs : List (Option Rat)) : Option Rat :=
  let vs := xs.filterMap id
  if vs.isEmpty then none else some (ratDiv (vs.foldl ratAdd 0) ((vs.length : Nat) : Rat))

/-- The boolean mask of one filter row (`FiltersFrame.apply_filters`, body of
the per-row branch); `.error` models an uncaught `KeyError` when the
operator is looked up in `OPS` but is not a key of it. -/
def rowMask (df : DataFrame) (r : FilterRow) : Except String (List Bool) :=
  let s := df.colVals r.col
  if COLUMN_OPS.contains r.op ∧ df.cols.contains r.cmp then
    let s2 := df.colVals r.cmp
    .ok (List.zipWith
      (fun a b => if strStartsWith "!=" r.op then castStr a ≠ castStr b else castStr a = castStr b)
      s s2)
  else if r.op = "contains" then
    .ok (s.map (fun v => reSearch (strLower r.val) (strLower (castStr v))))
  else if r.op = "in" then
    let values := ((strSplitComma r.val).map strTrim).filter (fun t => t ≠ "")
    .ok (s.map (fun v => values.contains (castStr v)))
  else if strLower r.val = "column average" then
    if OPS.contains r.op then
      let avg := meanOpt (s.map cleanNumeric)
      .ok (s.map (fun v => opEvalOptRat r.op (cleanNumeric v) avg))
    else .error "KeyError"
  else
    if OPS.contains r.op then
      match parseRat? r.val with
      | some x => .ok (s.map (fun v => opEvalOptRat r.op (cleanNumeric v) (some x)))
      | none => .ok (s.map (fun v => opEvalStr r.op (castStr v) r.val))
    else .error "KeyError"

/-- The mask-building loop of `apply_filters`: rows whose column is empty or
absent are skipped; the remaining rows contribute (mask, join) pairs. -/
def buildMasks (df : DataFrame) : List FilterRow → Except String (List (List Bool × String))
  | [] => .ok []
  | r :: rs =>
    if r.col = "" ∨ ¬ df.cols.contains r.col then buildMasks df rs
    else
      match rowMask df r with
      | .error e => .error e
      | .ok m =>
        match buildMasks df rs with
        | .error e => .error e
        | .ok rest => .ok ((m, r.join) :: rest)

/-- The left-to-right AND/OR fold over the masks. -/
def combineMasks (m0 : List Bool) (rest : List (List Bool × String)) : List Bool :=
  rest.foldl
    (fun acc p => if p.2 = "OR" then List.zipWith (· || ·) acc p.1
                  else List.zipWith (· && ·) acc p.1)
    m0

/-- `df[final]`: keep the rows whose mask entry is true. -/
def selectRows (rows : List (List Value)) (mask : List Bool) : List (List Value) :=
  (List.zip rows mask).filterMap (fun p => if p.2 then some p.1 else none)

/-- `FiltersFrame.apply_filters` (filters.py lines 171-215).  `none` models a
`None` dataset. -/
def apply_filters (frows : List FilterRow) (df? : Option DataFrame) :
    Except String (Option DataFrame) :=
  match df? with
  | none => .ok none
  | some df =>
    if df.isEmptyDf then .ok (some df)
    else
      match buildMasks df frows with
      | .error e => .error e
      | .ok [] => .ok (some df)
      | .ok ((m0, _) :: rest) =>
        .ok (some ⟨df.cols, selectRows df.rows (combineMasks m0 rest)⟩)

/-- A sort row, as held by `SortsFrame` (`join` is "" on the first row,
whose join widget is absent). -/
structure SortRow where
  join : String
  col : String
  ord : String
deriving DecidableEq, Repr

/-- Total order on cell values used to model pandas `sort_values` on a
homogeneous column: numbers by value, strings lexicographically.  Across
kinds a fixed convention (numbers before strings) is used; pandas raises on
heterogeneous object columns, which are outside the model. -/
def valOrd : Value → Value → Ordering
  | .num a, .num b => compare a b
  | .str a, .str b => compare a b
  | .num _, .str _ => .lt
  | .str _, .num _ => .gt
  | .null, .null => .eq
  | .null, _ => .gt
  | _, .null => .lt

/-- Per-key comparison with `na_position="last"`: nulls compare greater than
every non-null value in both directions; non-null values are compared by
`valOrd`, reversed when descending. -/
def keyOrd (asc : Bool) (a b : Value) : Ordering :=
  match a, b with
  | .null, .null => .eq
  | .null, _ => .gt
  | _, .null => .lt
  | x, y => if asc then valOrd x y else (valOrd x y).swap

/-- Lexicographic comparison of two rows over a group of sort keys. -/
def rowOrd (cols : List String) (group : List (String × Bool)) (r1 r2 : List Value) : Ordering :=
  match group with
  | [] => .eq
  | (c, asc) :: g =>
    match keyOrd asc (cellOf cols r1 c) (cellOf cols r2 c) with
    | .lt => .lt
    | .gt => .gt
    | .eq => rowOrd cols g r1 r2

/-- One pandas `sort_values(by=group, na_position="last", kind="mergesort")`
call: a stable multi-key sort of the rows. -/
def sortByGroup (df : DataFrame) (group : List (String × Bool)) : DataFrame :=
  ⟨df.cols, df.rows.mergeSort (fun r1 r2 => rowOrd df.cols group r1 r2 ≠ .gt)⟩

/-- The group-building loop of `SortsFrame.apply_sorts`: the accumulator `i`
is the position in the row list, `groups`/`current` the two accumulators of
the Python loop. -/
def buildGroupsAux (cols : List String) :
    Nat → List SortRow → List (List (String × Bool)) → List (String × Bool) →
    List (List (String × Bool))
  | _, [], groups, current => if current ≠ [] then groups ++ [current] else groups
  | i, r :: rs, groups, current =>
    if r.col = "" ∨ ¬ cols.contains r.col then buildGroupsAux cols (i + 1) rs groups current
    else
      let k := (r.col, r.ord != "Descending")
      if i = 0 then buildGroupsAux cols (i + 1) rs groups (current ++ [k])
      else if r.join = "OR" then
        buildGroupsAux cols (i + 1) rs (if current ≠ [] then groups ++ [current] else groups) [k]
      else buildGroupsAux cols (i + 1) rs groups (current ++ [k])

/-- The groups built by `apply_sorts` for a row list. -/
def sortGroups (srows : List SortRow) (cols : List String) : List (List (String × Bool)) :=
  buildGroupsAux cols 0 srows [] []

/-- `SortsFrame.apply_sorts` (sorts.py lines 175-215). -/
def apply_sorts (srows : List SortRow) (df? : Option DataFrame) : Option DataFrame :=
  match df? with
  | none => none
  | some df =>
    if df.isEmptyDf then some df
    else
      let groups := sortGroups srows df.cols
      if groups.isEmpty then some df
      else some (groups.reverse.foldl sortByGroup df)

/-- The column configuration, as produced by `ColumnsManagerFrame.get_config`
(`visible` is an association list modelling the Python dict; lookups default
to `true`). -/
structure ColumnsCfg where
  order : List String
  visible : List (String × Bool)
  dedupeEnabled : Bool
  dedupeColumn : String
deriving DecidableEq, Repr

/-- Dict lookup `column_visible.get(c, True)`. -/
def visLookup (l : List (String × Bool)) (c : String) : Bool :=
  ((l.find? (fun p => p.1 = c)).map Prod.snd).getD true

/-- The keep-first scan of pandas
`drop_duplicates(subset=[col], keep="first")`: `seen` is the set of key
values already encountered. -/
def dropDupAux (idx : Nat) (seen : List Value) : List (List Value) → List (List Value)
  | [] => []
  | r :: rs =>
    let v := (r.get? idx).getD Value.null
    if seen.contains v then dropDupAux idx seen rs
    else r :: dropDupAux idx (v :: seen) rs

/-- pandas `df.drop_duplicates(subset=[c], keep="first")`. -/
def dropDuplicates (df : DataFrame) (c : String) : DataFrame :=
  match colIndex? c df.cols with
  | some i => ⟨df.cols, dropDupAux i [] df.rows⟩
  | none => df

/-- `df[visible_cols]`: project a dataset onto a list of column names. -/
def project (df : DataFrame) (cs : List String) : DataFrame :=
  ⟨cs, df.rows.map (fun r => cs.map (cellOf df.cols r))⟩

/-- `ColumnsManagerFrame.apply_columns` (columns_manager.py lines 136-155). -/
def apply_columns (cfg : ColumnsCfg) (df? : Option DataFrame) : Option DataFrame :=
  match df? with
  | none => none
  | some df =>
    if df.isEmptyDf then some df
    else
      let df1 := if cfg.dedupeEnabled ∧ cfg.dedupeColumn ≠ ""
                    ∧ df.cols.contains cfg.dedupeColumn
                 then dropDuplicates df cfg.dedupeColumn else df
      let visibleCols := cfg.order.filter
        (fun c => visLookup cfg.visible c ∧ df1.cols.contains c)
      if visibleCols ≠ [] then project df1 visibleCols else df1

/-- `_dedupe_keep_order` from vlookup_helper.py. -/
def dedupeKeepOrder (items : List String) : List String :=
  (items.foldl (fun acc it => if acc.contains it then acc else acc ++ [it]) [])

/-- The candidate names tried by the collision loop: the base name itself,
then `base_lk1`, `base_lk2`, ... -/
def candidateName (base : String) (k : Nat) : String :=
  if k = 0 then base else base ++ "_lk" ++ toString k

/-- The `while new_name in reserved` loop of `perform_vlookup`, made total
with fuel; `i` is the index of the candidate currently being tried.  The
fuel `reserved.length + 1` used below always suffices (proved later), so the
fuel-exhausted branch is never reached. -/
def freshFrom (base : String) (reserved : List String) : Nat → Nat → String
  | 0, i => candidateName base i
  | fuel + 1, i =>
    if reserved.contains (candidateName base i) then freshFrom base reserved fuel (i + 1)
    else candidateName base i

/-- First candidate name not in `reserved` (the collision-avoidance loop). -/
def freshName (base : String) (reserved : List String) : String :=
  freshFrom base reserved (reserved.length + 1) 0

/-- The renaming loop of `perform_vlookup` (lines 216-228): returns the
rename map and the list of added column names; `reserved` starts as the main
dataset's column names and grows with each added name. -/
def buildRenameAux (pfx : String) (reserved : List String) :
    List String → List (String × String) × List String
  | [] => ([], [])
  | c :: cs =>
    let base := if pfx ≠ "" then pfx ++ c else c
    let n := freshName base reserved
    let rest := buildRenameAux pfx (reserved ++ [n]) cs
    ((c, n) :: rest.1, n :: rest.2)

/-- pandas `rename(columns=rm)`: relabel columns through the map. -/
def renameCols (df : DataFrame) (rm : List (String × String)) : DataFrame :=
  ⟨df.cols.map (fun c => (((rm.find? (fun p => p.1 = c)).map Prod.snd).getD c)), df.rows⟩

/-- The tuple of key cells of a row. -/
def keyTuple (cols keys : List String) (r : List Value) : List Value :=
  keys.map (cellOf cols r)

/-- pandas `main.merge(lookupSub, how="left", left_on, right_on,
suffixes=("", "_lk"))`: every main row in order; all matching lookup rows in
lookup order, or one all-null extension when there is no match.  A right key
column whose name equals its left counterpart is coalesced into the left
column; other right columns colliding with a main column get the `_lk`
suffix. -/
def leftMerge (main look : DataFrame) (leftOn rightOn : List String) : DataFrame :=
  let coalesced := (List.zip rightOn leftOn).filterMap
    (fun p => if p.1 = p.2 then some p.1 else none)
  let rightCols := look.cols.filter (fun c => ¬ coalesced.contains c)
  let outRightCols := rightCols.map (fun c => if main.cols.contains c then c ++ "_lk" else c)
  let rows := main.rows.flatMap (fun r =>
    let ms := look.rows.filter
      (fun lr => keyTuple look.cols rightOn lr = keyTuple main.cols leftOn r)
    if ms.isEmpty then [r ++ rightCols.map (fun _ => Value.null)]
    else ms.map (fun lr => r ++ rightCols.map (cellOf look.cols lr)))
  ⟨main.cols ++ outRightCols, rows⟩

/-- pandas `merged.drop(columns=[c])`: remove every column labelled `c`. -/
def dropColumn (df : DataFrame) (c : String) : DataFrame :=
  let keep := df.cols.enum.filter (fun p => p.2 ≠ c)
  ⟨keep.map Prod.snd, df.rows.map (fun r => keep.map (fun p => (r.get? p.1).getD Value.null))⟩

/-- Replace a null at position `i` of a row (used to model `fillna` on one
column). -/
def setNullAt (i : Nat) (fv : Value) : List Value → List Value
  | [] => []
  | v :: vs =>
    match i with
    | 0 => (if v = Value.null then fv else v) :: vs
    | j + 1 => v :: setNullAt j fv vs

/-- pandas `merged[c] = merged[c].fillna(fv)`. -/
def fillColumn (df : DataFrame) (c : String) (fv : Value) : DataFrame :=
  match colIndex? c df.cols with
  | none => df
  | some i => ⟨df.cols, df.rows.map (setNullAt i fv)⟩

/-- The fill loop of `perform_vlookup` (lines 239-242). -/
def applyFill (m : DataFrame) (addedCols : List String) (f : String) : DataFrame :=
  addedCols.foldl (fun m c => if m.cols.contains c then fillColumn m c (.str f) else m) m

/-- The merge step of `perform_vlookup` (vlookup_helper.py lines 205-248),
after the user dialogs and the precondition checks have succeeded and all
key/value names are already normalized to the datasets' canonical casing. -/
def vlookupMergeStep (main look : DataFrame) (mainKeys lookupKeys vals : List String)
    (pfx : String) (fill? : Option String) : DataFrame :=
  let left_on := dedupeKeepOrder mainKeys
  let right_on := dedupeKeepOrder lookupKeys
  let lookup_value_cols := dedupeKeepOrder (vals.filter (fun c => ¬ right_on.contains c))
  let merge_cols := dedupeKeepOrder (right_on ++ lookup_value_cols)
  let lookup_sub := project look merge_cols
  let ra := buildRenameAux pfx main.cols lookup_value_cols
  let lookup_sub2 := renameCols lookup_sub ra.1
  let merged := leftMerge main lookup_sub2 left_on right_on
  let merged2 := (List.zip right_on left_on).foldl
    (fun m p => if p.1 ≠ p.2 ∧ m.cols.contains p.1 then dropColumn m p.1 else m) merged
  match fill? with
  | some f => applyFill merged2 ra.2 f
  | none => merged2

/-- The blank row installed by `FiltersFrame.reset` / the initial
`add_row()` (join is "" on the first row). -/
def blankFilterRow : FilterRow := ⟨"", "", "==", "", ""⟩

/-- `FiltersFrame.add_row` effect on the row-state (UI fields dropped);
`none` models `add_row()` without a preset. -/
def filtersAddRow (rows : List FilterRow) (p : Option FilterRow) : List FilterRow :=
  match p with
  | none => rows ++ [⟨if rows.length = 0 then "" else "AND", "", "==", "", ""⟩]
  | some f => rows ++ [f]

/-- `FiltersFrame.load_config`: reset (leaving one blank row) then add one
row per config entry. -/
def filtersLoadConfig (cfg : List FilterRow) : List FilterRow :=
  cfg.foldl (fun rs f => filtersAddRow rs (some f)) (filtersAddRow [] none)

/-- `FiltersFrame.get_config`. -/
def filtersGetConfig (rows : List FilterRow) : List FilterRow := rows

/-- `SortsFrame.add_row` effect on the row-state: the first row has no join
widget (recorded as ""); preset joins outside AND/OR fall back to "AND" and
orders outside Ascending/Descending fall back to "Ascending". -/
def sortsAddRow (rows : List SortRow) (p : Option (String × String × String)) : List SortRow :=
  match p with
  | none => rows ++ [⟨if rows.length = 0 then "" else "AND", "", "Ascending"⟩]
  | some (j, c, o) =>
    rows ++ [⟨if rows.length = 0 then ""
              else if j = "AND" ∨ j = "OR" then j else "AND",
             c,
             if o = "Ascending" ∨ o = "Descending" then o else "Ascending"⟩]

/-- `SortsFrame.load_config`: reset (one blank row) then add rows. -/
def sortsLoadConfig (cfg : List (String × String × String)) : List SortRow :=
  cfg.foldl (fun rs t => sortsAddRow rs (some t)) (sortsAddRow [] none)

/-- `SortsFrame.get_config`. -/
def sortsGetConfig (rows : List SortRow) : List (String × String × String) :=
  rows.map (fun r => (r.join, r.col, r.ord))

/-- `ColumnsManagerFrame.__init__` state for a source dataset. -/
def columnsInitState (df? : Option DataFrame) : ColumnsCfg :=
  match df? with
  | some df => ⟨df.cols, df.cols.map (fun c => (c, true)), false, ""⟩
  | none => ⟨[], [], false, ""⟩

/-- `ColumnsManagerFrame.load_config`: every field of the state is replaced
by the config's (the state is only the default for absent keys, and a full
config has every key). -/
def columnsLoadConfig (_st : ColumnsCfg) (cfg : ColumnsCfg) : ColumnsCfg := cfg

/-- `ColumnsManagerFrame.get_config`. -/
def columnsGetConfig (st : ColumnsCfg) : ColumnsCfg := st

/-- One sheet of a preset (`presets.py` schema); pivot/vlookup entries are
not consumed by `apply_preset_to_df` and are omitted. -/
structure PresetSheet where
  filters : Option (List FilterRow)
  sorts : Option (List (String × String × String))
  columns : Option ColumnsCfg
deriving DecidableEq, Repr

/-- The extra equality filter of `apply_preset_to_df`:
`df[df[col].astype(str) == str(val)]` for one `(col, val)` item, skipped
when the column is absent. -/
def extraFilter (df : DataFrame) (col v : String) : DataFrame :=
  if df.cols.contains col then
    ⟨df.cols, selectRows df.rows ((df.colVals col).map (fun x => castStr x = v))⟩
  else df

/-- `PresetManager.apply_preset_to_df` (presets.py lines 197-235): preset
filters first, then the extra filters, then sorts, then columns. -/
def apply_preset_to_df (df : DataFrame) (sheets : List PresetSheet)
    (extra : List (String × String)) : Except String DataFrame :=
  match sheets with
  | [] => .ok df
  | sc :: _ =>
    let df1E := match sc.filters with
      | some cfg => apply_filters (filtersLoadConfig cfg) (some df)
      | none => .ok (some df)
    match df1E with
    | .error e => .error e
    | .ok df1? =>
      let df1 := df1?.getD df
      let df2 := extra.foldl (fun d p => extraFilter d p.1 p.2) df1
      let df3 := (match sc.sorts with
        | some cfg => apply_sorts (sortsLoadConfig cfg) (some df2)
        | none => some df2).getD df2
      let df4 := (match sc.columns with
        | some cfg => apply_columns (columnsLoadConfig (columnsInitState (some df3)) cfg) (some df3)
        | none => some df3).getD df3
      .ok df4

/-- The per-user loop of `run_automation` (automation_runner.py lines
46-63): one output sheet per user, named by the identifier truncated to 31
characters; users whose dataset comes out empty are omitted. -/
def run_automation_sheets (df : DataFrame) (users : List String)
    (sheets : List PresetSheet) : Except String (List (String × DataFrame)) :=
  match users with
  | [] => .ok []
  | u :: us =>
    match apply_preset_to_df df sheets [("User", u)] with
    | .error e => .error e
    | .ok dfu =>
      match run_automation_sheets df us sheets with
      | .error e => .error e
      | .ok rest => .ok (if dfu.isEmptyDf then rest else (strTake 31 u, dfu) :: rest)

/-! ### Spec-side definitions

The following definitions are written from the specification's words (not
from the source); the theorems below compare the source-derived definitions
against them. -/

/-- Spec-side: case-insensitive plain-substring test — the literal is NOT
interpreted as a pattern (spec §4.2 `contains`). -/
def plainSubstr (pat txt : String) : Bool :=
  (List.range (txt.toList.length + 1)).any
    (fun i => List.isPrefixOf pat.toList (txt.toList.drop i))

/-- Spec-side: the `contains` mask described by the claim: plain substring,
case-insensitive, null/missing never matches. -/
def claimContainsMask (pat : String) (v : Value) : Bool :=
  match v with
  | .null => false
  | _ => plainSubstr (strLower pat) (strLower (castStr v))

/-- Spec-side (C3): the sort key of one row. -/
def keyOfSortRow (r : SortRow) : String × Bool := (r.col, r.ord != "Descending")

/-- Spec-side (C3): group building by the claim's words — a row whose join
is OR starts a new group, any other row appends to the current group. -/
def specGroupsAux (cur : List (String × Bool)) : List SortRow → List (List (String × Bool))
  | [] => [cur]
  | r :: rs =>
    if r.join = "OR" then cur :: specGroupsAux [keyOfSortRow r] rs
    else specGroupsAux (cur ++ [keyOfSortRow r]) rs

/-- Spec-side (C3): partition of the sort rows into ordered groups (the
first row always opens the first group). -/
def specGroups : List SortRow → List (List (String × Bool))
  | [] => []
  | r :: rs => specGroupsAux [keyOfSortRow r] rs

/-- Spec-side (C3): apply the groups last-to-first, each as one stable
multi-key sort, so the first group is the outermost key. -/
def specApplySorts (srows : List SortRow) (df : DataFrame) : DataFrame :=
  (specGroups srows).foldr (fun g acc => sortByGroup acc g) df

/-- Spec-side (C4): the dedupe step as the claim orders it. -/
def specDedupe (cfg : ColumnsCfg) (df : DataFrame) : DataFrame :=
  if cfg.dedupeEnabled ∧ cfg.dedupeColumn ≠ "" ∧ df.cols.contains cfg.dedupeColumn
  then dropDuplicates df cfg.dedupeColumn else df

/-- Spec-side (C4): the visible column list — `order` filtered to columns
both visible and present, preserving `order`'s sequence. -/
def specVisible (cfg : ColumnsCfg) (df : DataFrame) : List String :=
  cfg.order.filter (fun c => visLookup cfg.visible c ∧ df.cols.contains c)

/-- Spec-side (C4, the claim as frozen): dedupe, then project onto exactly
the visible list — also when that list is empty. -/
def claimApplyColumns (cfg : ColumnsCfg) (df : DataFrame) : DataFrame :=
  project (specDedupe cfg df) (specVisible cfg df)

/-- Spec-side (C4, amended): dedupe, then project onto the visible list
only when it is non-empty; an empty visible list leaves the dataset
unprojected. -/
def specAmendedColumns (cfg : ColumnsCfg) (df : DataFrame) : DataFrame :=
  let d := specDedupe cfg df
  let vis := specVisible cfg df
  if vis = [] then d else project d vis

/-- A raw sort-config triple as a sort row. -/
def sortRowOfTriple (t : String × String × String) : SortRow :=
  ⟨t.fst, t.snd.fst, t.snd.snd⟩

/-- Spec-side (C9, the claim as frozen): the per-user sheet is the base
dataset filtered to the identifier first, then run through the preset's
filter, sort and column configuration, in that order (raw configs). -/
def claimUserSheet (df : DataFrame) (u : String) (sheets : List PresetSheet) :
    Except String DataFrame :=
  match sheets with
  | [] => .ok (extraFilter df "User" u)
  | sc :: _ =>
    let d0 := extraFilter df "User" u
    let d1E := match sc.filters with
      | some cfg => apply_filters cfg (some d0)
      | none => .ok (some d0)
    match d1E with
    | .error e => .error e
    | .ok d1? =>
      let d1 := d1?.getD d0
      let d2 := (match sc.sorts with
        | some cfg => apply_sorts (cfg.map sortRowOfTriple) (some d1)
        | none => some d1).getD d1
      let d3 := (match sc.columns with
        | some cfg => apply_columns cfg (some d2)
        | none => some d2).getD d2
      .ok d3

/-- Spec-side (C9, the claim as frozen): one sheet per identifier, omitting
identifiers whose resulting dataset is empty. -/
def claimAutomationSheets (df : DataFrame) (users : List String)
    (sheets : List PresetSheet) : Except String (List (String × DataFrame)) :=
  match users with
  | [] => .ok []
  | u :: us =>
    match claimUserSheet df u sheets with
    | .error e => .error e
    | .ok dfu =>
      match claimAutomationSheets df us sheets with
      | .error e => .error e
      | .ok rest => .ok (if dfu.isEmptyDf then rest else (strTake 31 u, dfu) :: rest)

/-- Spec-side (C9, amended): per-user sheet with the engines applied in the
code's order — preset filter first, then the extra identifier filter, then
sorts, then columns — but phrased over the raw preset configuration,
without the blank UI rows that `load_config` installs. -/
def amendedUserSheet (df : DataFrame) (u : String) (sheets : List PresetSheet) :
    Except String DataFrame :=
  match sheets with
  | [] => .ok df
  | sc :: _ =>
    let d1E := match sc.filters with
      | some cfg => apply_filters cfg (some df)
      | none => .ok (some df)
    match d1E with
    | .error e => .error e
    | .ok d1? =>
      let d1 := d1?.getD df
      let d2 := extraFilter d1 "User" u
      let d3 := (match sc.sorts with
        | some cfg => apply_sorts (cfg.map sortRowOfTriple) (some d2)
        | none => some d2).getD d2
      let d4 := (match sc.columns with
        | some cfg => apply_columns cfg (some d3)
        | none => some d3).getD d3
      .ok d4

/-- Spec-side (C9, amended): the full automation output over the amended
per-user pipeline. -/
def amendedAutomationSheets (df : DataFrame) (users : List String)
    (sheets : List PresetSheet) : Except String (List (String × DataFrame)) :=
  match users with
  | [] => .ok []
  | u :: us =>
    match amendedUserSheet df u sheets with
    | .error e => .error e
    | .ok dfu =>
      match amendedAutomationSheets df us sheets with
      | .error e => .error e
      | .ok rest => .ok (if dfu.isEmptyDf then rest else (strTake 31 u, dfu) :: rest)

/-- Spec-side (C5, amended): what `SortsFrame.add_row` makes of a loaded
non-first config row: joins outside AND/OR fall back to "AND", orders
outside Ascending/Descending fall back to "Ascending". -/
def normSortTriple (t : String × String × String) : String × String × String :=
  (if t.fst = "AND" ∨ t.fst = "OR" then t.fst else "AND",
   t.snd.fst,
   if t.snd.snd = "Ascending" ∨ t.snd.snd = "Descending" then t.snd.snd else "Ascending")

/-! ### Decimal rendering is injective

The collision-avoidance loop of the join engine generates names
`base_lk1`, `base_lk2`, ...; to show it always finds a fresh name within
`reserved.length + 1` attempts we prove that `Nat`'s decimal rendering is
injective, via an explicit digits function and its round-trip. -/

/-- Decimal digit characters of a natural number, most significant first. -/
def natDigits (n : Nat) : List Char :=
  if _h : n < 10 then [Nat.digitChar n]
  else natDigits (n / 10) ++ [Nat.digitChar (n % 10)]
termination_by n
decreasing_by
  exact Nat.div_lt_self (by omega) (by omega)

theorem natDigits_ne_nil (n : Nat) : natDigits n ≠ [] := by
  rw [natDigits]
  split
  · simp
  · simp

theorem toDigitsCore_eq_natDigits (f : Nat) :
    ∀ (n : Nat) (acc : List Char), n < f →
      Nat.toDigitsCore 10 f n acc = natDigits n ++ acc := by
  induction f with
  | zero => intro n acc h; omega
  | succ f ih =>
    intro n acc h
    show (if n / 10 = 0 then Nat.digitChar (n % 10) :: acc
          else Nat.toDigitsCore 10 f (n / 10) (Nat.digitChar (n % 10) :: acc))
        = natDigits n ++ acc
    by_cases h0 : n / 10 = 0
    · have hn : n < 10 := by omega
      rw [if_pos h0, natDigits]
      rw [dif_pos hn, Nat.mod_eq_of_lt hn]
      rfl
    · have hn : ¬ n < 10 := by
        intro hlt
        exact h0 (Nat.div_eq_of_lt hlt)
      have hdiv : n / 10 < f := by
        have h1 : n / 10 < n := Nat.div_lt_self (by omega) (by omega)
        omega
      rw [if_neg h0, ih (n / 10) _ hdiv]
      conv_rhs => rw [natDigits]
      rw [dif_neg hn, List.append_assoc, List.singleton_append]

theorem toDigits_eq_natDigits (n : Nat) : Nat.toDigits 10 n = natDigits n := by
  have h := toDigitsCore_eq_natDigits (n + 1) n [] (by omega)
  simpa [Nat.toDigits] using h

theorem digitsToNat_append_singleton (l : List Char) (c : Char) :
    digitsToNat (l ++ [c]) = 10 * digitsToNat l + (c.toNat - '0'.toNat) := by
  simp [digitsToNat, List.foldl_append, Nat.mul_comm]

theorem digitChar_val (d : Nat) (h : d < 10) :
    (Nat.digitChar d).toNat - '0'.toNat = d := by
  interval_cases d <;> decide

theorem digitsToNat_natDigits : ∀ n, digitsToNat (natDigits n) = n := by
  intro n
  induction n using Nat.strong_induction_on with
  | _ n ih =>
    rw [natDigits]
    split
    · rename_i h
      show digitsToNat ([] ++ [Nat.digitChar n]) = n
      rw [digitsToNat_append_singleton, digitChar_val n h]
      simp [digitsToNat]
    · rename_i h
      rw [digitsToNat_append_singleton, digitChar_val _ (Nat.mod_lt n (by omega)),
        ih (n / 10) (Nat.div_lt_self (by omega) (by omega))]
      omega

theorem natRepr_injective : Function.Injective Nat.repr := by
  intro m n h
  have hd : Nat.toDigits 10 m = Nat.toDigits 10 n := congrArg String.data h
  rw [toDigits_eq_natDigits, toDigits_eq_natDigits] at hd
  calc m = digitsToNat (natDigits m) := (digitsToNat_natDigits m).symm
    _ = digitsToNat (natDigits n) := by rw [hd]
    _ = n := digitsToNat_natDigits n

theorem natRepr_length_pos (n : Nat) : 0 < (Nat.repr n).length := by
  show 0 < (Nat.toDigits 10 n).asString.length
  rw [toDigits_eq_natDigits]
  have h := natDigits_ne_nil n
  simp [List.asString, String.length]
  exact List.length_pos.mpr h

theorem candidateName_injective (base : String) :
    Function.Injective (candidateName base) := by
  intro i j h
  unfold candidateName at h
  by_cases hi : i = 0 <;> by_cases hj : j = 0
  · omega
  · rw [if_pos hi, if_neg hj] at h
    have := congrArg String.length h
    simp only [String.length_append] at this
    have h3 : ("_lk" : String).length = 3 := rfl
    have hr : toString j = Nat.repr j := rfl
    rw [h3, hr] at this
    have := natRepr_length_pos j
    omega
  · rw [if_neg hi, if_pos hj] at h
    have := congrArg String.length h
    simp only [String.length_append] at this
    have h3 : ("_lk" : String).length = 3 := rfl
    have hr : toString i = Nat.repr i := rfl
    rw [h3, hr] at this
    have := natRepr_length_pos i
    omega
  · rw [if_neg hi, if_neg hj] at h
    have hdata := congrArg String.data h
    simp only [String.data_append] at hdata
    have h2 : (toString i).data = (toString j).data := List.append_cancel_left hdata
    have : toString i = toString j := by
      apply String.ext
      exact h2
    exact natRepr_injective this

/-- Pigeonhole: among the first `reserved.length + 1` candidate names at
least one is absent from `reserved`. -/
theorem exists_fresh_candidate (base : String) (reserved : List String) :
    ∃ k, k ≤ reserved.length ∧ ¬ reserved.contains (candidateName base k) := by
  by_contra hc
  push_neg at hc
  have hall : ∀ k, k ≤ reserved.length → candidateName base k ∈ reserved := by
    intro k hk
    exact List.mem_of_elem_eq_true (hc k hk)
  set n := reserved.length with hn
  set L : List String := (List.range (n + 1)).map (candidateName base) with hL
  have hnodup : L.Nodup :=
    (List.nodup_range (n + 1)).map (candidateName_injective base)
  have hsub : ∀ x ∈ L, x ∈ reserved := by
    intro x hx
    rw [hL, List.mem_map] at hx
    obtain ⟨k, hk, rfl⟩ := hx
    exact hall k (by simpa [Nat.lt_succ_iff] using List.mem_range.mp hk)
  have hcard1 : L.toFinset.card = n + 1 := by
    rw [List.toFinset_card_of_nodup hnodup, hL, List.length_map, List.length_range]
  have hsubF : L.toFinset ⊆ reserved.toFinset := by
    intro x hx
    rw [List.mem_toFinset] at hx ⊢
    exact hsub x hx
  have hcard2 : reserved.toFinset.card ≤ n := hn ▸ reserved.toFinset_card_le
  have := Finset.card_le_card hsubF
  omega

/-- Characterization of the scan `freshFrom`: if some candidate within the
fuel is fresh, the scan returns the first fresh candidate. -/
theorem freshFrom_spec (base : String) (reserved : List String) :
    ∀ fuel i, (∃ k, k < fuel ∧ ¬ reserved.contains (candidateName base (i + k))) →
      ∃ j, freshFrom base reserved fuel i = candidateName base (i + j)
        ∧ ¬ reserved.contains (candidateName base (i + j))
        ∧ ∀ t, t < j → reserved.contains (candidateName base (i + t)) := by
  intro fuel
  induction fuel with
  | zero =>
    intro i h
    obtain ⟨k, hk, _⟩ := h
    omega
  | succ fuel ih =>
    intro i h
    by_cases hc : reserved.contains (candidateName base i)
    · obtain ⟨k, hk, hfresh⟩ := h
      have hk0 : k ≠ 0 := by
        intro h0
        rw [h0, Nat.add_zero] at hfresh
        exact hfresh hc
      obtain ⟨k', rfl⟩ : ∃ k', k = k' + 1 := ⟨k - 1, by omega⟩
      have hex : ∃ m, m < fuel ∧ ¬ reserved.contains (candidateName base (i + 1 + m)) := by
        refine ⟨k', by omega, ?_⟩
        have : i + 1 + k' = i + (k' + 1) := by omega
        rw [this]
        exact hfresh
      obtain ⟨j', hj1, hj2, hj3⟩ := ih (i + 1) hex
      refine ⟨j' + 1, ?_, ?_, ?_⟩
      · show freshFrom base reserved (fuel + 1) i = _
        rw [freshFrom, if_pos hc, hj1]
        congr 1
        omega
      · have : i + (j' + 1) = i + 1 + j' := by omega
        rw [this]
        exact hj2
      · intro t ht
        match t with
        | 0 => simpa using hc
        | t' + 1 =>
          have : i + (t' + 1) = i + 1 + t' := by omega
          rw [this]
          exact hj3 t' (by omega)
    · refine ⟨0, ?_, by simpa using hc, by omega⟩
      show freshFrom base reserved (fuel + 1) i = _
      rw [freshFrom, if_neg hc]
      simp

/-- The collision loop returns the first candidate name (`base`, `base_lk1`,
`base_lk2`, ...) that is not reserved: the name exists, is fresh, and every
earlier candidate is reserved. -/
theorem freshName_spec (base : String) (reserved : List String) :
    ∃ k, freshName base reserved = candidateName base k
      ∧ ¬ reserved.contains (candidateName base k)
      ∧ ∀ t, t < k → reserved.contains (candidateName base t) := by
  have hex : ∃ k, k < reserved.length + 1 ∧
      ¬ reserved.contains (candidateName base (0 + k)) := by
    obtain ⟨k, hk, hfresh⟩ := exists_fresh_candidate base reserved
    exact ⟨k, by omega, by simpa using hfresh⟩
  obtain ⟨j, h1, h2, h3⟩ := freshFrom_spec base reserved (reserved.length + 1) 0 hex
  refine ⟨j, ?_, by simpa using h2, ?_⟩
  · simpa [freshName] using h1
  · intro t ht
    have := h3 t ht
    simpa using this

/-- The fresh name is never an existing reserved name. -/
theorem freshName_not_mem (base : String) (reserved : List String) :
    ¬ reserved.contains (freshName base reserved) := by
  obtain ⟨k, h1, h2, _⟩ := freshName_spec base reserved
  rw [h1]
  exact h2

/-- When the base name itself is free it is used unchanged. -/
theorem freshName_of_not_mem (base : String) (reserved : List String)
    (h : ¬ reserved.contains base) : freshName base reserved = base := by
  obtain ⟨k, h1, _, h3⟩ := freshName_spec base reserved
  match k, h1, h3 with
  | 0, h1, _ => simpa [candidateName] using h1
  | k' + 1, _, h3 =>
    exact absurd (by simpa [candidateName] using h3 0 (by omega)) h

/-! ### Helper lemmas -/

theorem contains_iff {l : List String} {a : String} : l.contains a = true ↔ a ∈ l := by
  simp [List.contains]

theorem colIndex?_get : ∀ (l : List String) (c : String) (i : Nat),
    colIndex? c l = some i → l.get? i = some c := by
  intro l
  induction l with
  | nil => intro c i h; simp [colIndex?] at h
  | cons a l ih =>
    intro c i h
    rw [colIndex?] at h
    by_cases hac : a = c
    · rw [if_pos hac] at h
      cases h
      simpa using hac
    · rw [if_neg hac] at h
      cases hcl : colIndex? c l with
      | none => rw [hcl] at h; simp at h
      | some j =>
        rw [hcl] at h
        have hi : i = j + 1 := by
          have : some (j + 1) = some i := h
          injection this with h2
          omega
        subst hi
        simp only [List.get?_cons_succ]
        exact ih c j hcl

theorem colIndex?_of_mem : ∀ (l : List String) (c : String), c ∈ l →
    ∃ i, colIndex? c l = some i ∧ i < l.length := by
  intro l
  induction l with
  | nil => intro c h; simp at h
  | cons a l ih =>
    intro c h
    by_cases hac : a = c
    · exact ⟨0, by rw [colIndex?, if_pos hac], by simp⟩
    · have hcl : c ∈ l := by
        rcases List.mem_cons.mp h with h1 | h1
        · exact absurd h1.symm hac
        · exact h1
      obtain ⟨i, hi, hlen⟩ := ih c hcl
      refine ⟨i + 1, ?_, by simpa using Nat.succ_lt_succ hlen⟩
      rw [colIndex?, if_neg hac, hi]
      rfl

theorem colIndex?_append_right : ∀ (l1 l2 : List String) (c : String), c ∉ l1 →
    colIndex? c (l1 ++ l2) = (colIndex? c l2).map (· + l1.length) := by
  intro l1
  induction l1 with
  | nil =>
    intro l2 c _
    simp
  | cons a l1 ih =>
    intro l2 c h
    have hac : a ≠ c := fun hh => h (by simp [hh])
    have hcl : c ∉ l1 := fun hh => h (by simp [hh])
    rw [List.cons_append, colIndex?, if_neg hac, ih l2 c hcl]
    cases colIndex? c l2 with
    | none => simp
    | some j => simp; omega

theorem colIndex?_none : ∀ (l : List String) (c : String), c ∉ l → colIndex? c l = none := by
  intro l
  induction l with
  | nil => intro c _; rfl
  | cons a l ih =>
    intro c h
    have hac : a ≠ c := fun hh => h (by simp [hh])
    have hcl : c ∉ l := fun hh => h (by simp [hh])
    rw [colIndex?, if_neg hac, ih c hcl]
    rfl

/-! ### Properties of the rename loop -/

theorem buildRenameAux_added_map (pfx : String) :
    ∀ (cols reserved : List String),
      (buildRenameAux pfx reserved cols).2 = (buildRenameAux pfx reserved cols).1.map Prod.snd := by
  intro cols
  induction cols with
  | nil => intro reserved; rfl
  | cons c cs ih =>
    intro reserved
    simp only [buildRenameAux, List.map_cons]
    rw [ih]

theorem buildRenameAux_keys (pfx : String) :
    ∀ (cols reserved : List String),
      (buildRenameAux pfx reserved cols).1.map Prod.fst = cols := by
  intro cols
  induction cols with
  | nil => intro reserved; rfl
  | cons c cs ih =>
    intro reserved
    simp only [buildRenameAux, List.map_cons, List.cons.injEq]
    exact ⟨trivial, ih _⟩

theorem buildRenameAux_not_mem (pfx : String) :
    ∀ (cols reserved : List String),
      ∀ n ∈ (buildRenameAux pfx reserved cols).2, n ∉ reserved := by
  intro cols
  induction cols with
  | nil => intro reserved n h; simp [buildRenameAux] at h
  | cons c cs ih =>
    intro reserved n h
    simp only [buildRenameAux, List.mem_cons] at h
    rcases h with h | h
    · subst h
      intro hmem
      exact freshName_not_mem _ reserved (contains_iff.mpr hmem)
    · intro hmem
      have := ih (reserved ++ [freshName (if pfx ≠ "" then pfx ++ c else c) reserved]) n h
      exact this (by simp [hmem])

theorem buildRenameAux_nodup (pfx : String) :
    ∀ (cols reserved : List String), (buildRenameAux pfx reserved cols).2.Nodup := by
  intro cols
  induction cols with
  | nil => intro reserved; simp [buildRenameAux]
  | cons c cs ih =>
    intro reserved
    simp only [buildRenameAux, List.nodup_cons]
    constructor
    · intro hmem
      have := buildRenameAux_not_mem pfx cs
        (reserved ++ [freshName (if pfx ≠ "" then pfx ++ c else c) reserved]) _ hmem
      exact this (by simp)
    · exact ih _

theorem buildRenameAux_names (pfx : String) :
    ∀ (cols reserved : List String),
      ∀ p ∈ (buildRenameAux pfx reserved cols).1,
        ∃ R : List String, (∀ x ∈ reserved, x ∈ R)
          ∧ p.2 = freshName (if pfx ≠ "" then pfx ++ p.1 else p.1) R := by
  intro cols
  induction cols with
  | nil => intro reserved p h; simp [buildRenameAux] at h
  | cons c cs ih =>
    intro reserved p h
    simp only [buildRenameAux, List.mem_cons] at h
    rcases h with h | h
    · subst h
      exact ⟨reserved, fun x hx => hx, rfl⟩
    · obtain ⟨R, hR1, hR2⟩ := ih _ p h
      exact ⟨R, fun x hx => hR1 x (by simp [hx]), hR2⟩

/-! ### Properties of the fill step -/

theorem setNullAt_get_ne : ∀ (r : List Value) (i j : Nat) (fv : Value), i ≠ j →
    (setNullAt i fv r).get? j = r.get? j := by
  intro r
  induction r with
  | nil => intro i j fv _; cases i <;> rfl
  | cons x xs ih =>
    intro i j fv hij
    cases i with
    | zero =>
      cases j with
      | zero => omega
      | succ j' => rfl
    | succ i' =>
      cases j with
      | zero => rfl
      | succ j' =>
        show (setNullAt (i' + 1) fv (x :: xs)).get? (j' + 1) = _
        simp only [setNullAt, List.get?_cons_succ]
        exact ih i' j' fv (by omega)

theorem setNullAt_get_self : ∀ (r : List Value) (i : Nat) (fv v : Value),
    r.get? i = some v →
    (setNullAt i fv r).get? i = some (if v = Value.null then fv else v) := by
  intro r
  induction r with
  | nil => intro i fv v h; simp at h
  | cons x xs ih =>
    intro i fv v h
    cases i with
    | zero =>
      simp only [List.get?_cons_zero, Option.some.injEq] at h
      subst h
      rfl
    | succ i' =>
      simp only [List.get?_cons_succ] at h
      show (setNullAt (i' + 1) fv (x :: xs)).get? (i' + 1) = _
      simp only [setNullAt, List.get?_cons_succ]
      exact ih i' fv v h

theorem fillColumn_cols (df : DataFrame) (c : String) (fv : Value) :
    (fillColumn df c fv).cols = df.cols := by
  unfold fillColumn
  cases colIndex? c df.cols <;> rfl

theorem fillColumn_rows_length (df : DataFrame) (c : String) (fv : Value) :
    (fillColumn df c fv).rows.length = df.rows.length := by
  unfold fillColumn
  cases colIndex? c df.cols <;> simp

theorem fillColumn_colVals_ne (df : DataFrame) (c c2 : String) (fv : Value)
    (h : c2 ≠ c) : (fillColumn df c fv).colVals c2 = df.colVals c2 := by
  unfold fillColumn
  cases hidx : colIndex? c df.cols with
  | none => rfl
  | some i =>
    show List.map _ (List.map _ df.rows) = _
    unfold DataFrame.colVals
    rw [List.map_map]
    apply List.map_congr_left
    intro r _
    show cellOf df.cols (setNullAt i fv r) c2 = cellOf df.cols r c2
    unfold cellOf
    cases hidx2 : colIndex? c2 df.cols with
    | none => rfl
    | some j =>
      have hci : df.cols.get? i = some c := colIndex?_get _ _ _ hidx
      have hcj : df.cols.get? j = some c2 := colIndex?_get _ _ _ hidx2
      have hij : i ≠ j := by
        intro he
        rw [he, hcj] at hci
        exact h (by injection hci)
      show ((setNullAt i fv r).get? j).getD Value.null = (r.get? j).getD Value.null
      rw [setNullAt_get_ne r i j fv hij]

theorem fillColumn_colVals_self (df : DataFrame) (c : String) (fv : Value)
    (hc : c ∈ df.cols) (hwf : ∀ r ∈ df.rows, df.cols.length ≤ r.length) :
    (fillColumn df c fv).colVals c
      = (df.colVals c).map (fun v => if v = Value.null then fv else v) := by
  obtain ⟨i, hidx, hlen⟩ := colIndex?_of_mem _ _ hc
  unfold fillColumn
  rw [hidx]
  show List.map _ (List.map _ df.rows) = _
  unfold DataFrame.colVals
  rw [List.map_map, List.map_map]
  apply List.map_congr_left
  intro r hr
  show cellOf df.cols (setNullAt i fv r) c
      = (fun v => if v = Value.null then fv else v) (cellOf df.cols r c)
  have hilen : i < r.length := Nat.lt_of_lt_of_le hlen (hwf r hr)
  obtain ⟨v, hv⟩ : ∃ v, r.get? i = some v := by
    cases hg : r.get? i with
    | none =>
      exact absurd (List.get?_eq_none.mp hg) (by omega)
    | some v => exact ⟨v, rfl⟩
  unfold cellOf
  rw [hidx]
  show ((setNullAt i fv r).get? i).getD Value.null
      = (fun v => if v = Value.null then fv else v) ((r.get? i).getD Value.null)
  rw [setNullAt_get_self r i fv v hv, hv]
  simp

theorem applyFill_colVals_ne : ∀ (added : List String) (m : DataFrame) (f c2 : String),
    c2 ∉ added → (applyFill m added f).colVals c2 = m.colVals c2 := by
  intro added
  induction added with
  | nil => intro m f c2 _; rfl
  | cons a rest ih =>
    intro m f c2 h
    have hne : c2 ≠ a := fun hh => h (by simp [hh])
    have hrest : c2 ∉ rest := fun hh => h (by simp [hh])
    show (applyFill (if m.cols.contains a then fillColumn m a (Value.str f) else m) rest f).colVals c2
        = m.colVals c2
    rw [ih _ f c2 hrest]
    by_cases hca : m.cols.contains a
    · rw [if_pos hca]
      exact fillColumn_colVals_ne m a c2 (Value.str f) hne
    · rw [if_neg hca]

/-- C6: each added value column is named `prefix + original_name` (the
original name when the prefix is empty), with numeric suffixes `_lk1`,
`_lk2`, ... appended until the name avoids the main dataset's columns and
all previously added names; the added names are pairwise distinct and
disjoint from the reserved set; and filling replaces exactly the nulls of
the filled (added) columns while every column outside the filled set keeps
all its values. -/
theorem C6_join_naming_and_fill :
    (∀ base reserved, ∃ k, freshName base reserved = candidateName base k
        ∧ ¬ reserved.contains (candidateName base k)
        ∧ ∀ t, t < k → reserved.contains (candidateName base t))
  ∧ (∀ pfx reserved cols,
        (buildRenameAux pfx reserved cols).2.Nodup
      ∧ (∀ n ∈ (buildRenameAux pfx reserved cols).2, n ∉ reserved)
      ∧ (∀ p ∈ (buildRenameAux pfx reserved cols).1, ∃ R : List String,
            (∀ x ∈ reserved, x ∈ R)
          ∧ p.2 = freshName (if pfx ≠ "" then pfx ++ p.1 else p.1) R))
  ∧ (∀ (m : DataFrame) (added : List String) (f c2 : String), c2 ∉ added →
        (applyFill m added f).colVals c2 = m.colVals c2)
  ∧ (∀ (m : DataFrame) (c f : String), c ∈ m.cols →
        (∀ r ∈ m.rows, m.cols.length ≤ r.length) →
        (fillColumn m c (Value.str f)).colVals c
          = (m.colVals c).map (fun v => if v = Value.null then Value.str f else v)) := by
  refine ⟨freshName_spec, ?_, ?_, ?_⟩
  · intro pfx reserved cols
    exact ⟨buildRenameAux_nodup pfx cols reserved,
           buildRenameAux_not_mem pfx cols reserved,
           buildRenameAux_names pfx cols reserved⟩
  · intro m added f c2 h
    exact applyFill_colVals_ne added m f c2 h
  · intro m c f hc hwf
    exact fillColumn_colVals_self m c (Value.str f) hc hwf

/-- Witness for C6 at concrete inputs: with `name` reserved, the first
added column for value column `name` gets suffix `_lk1`; fills replace
nulls only in the named column. -/
theorem C6_join_naming_and_fill_witness :
    (∃ k, freshName "name" ["name"] = candidateName "name" k
        ∧ ¬ (["name"] : List String).contains (candidateName "name" k)
        ∧ ∀ t, t < k → (["name"] : List String).contains (candidateName "name" t))
  ∧ ((fillColumn ⟨["id", "name"], [[Value.num 2, Value.null]]⟩ "name" (Value.str "N/A")).colVals "name"
      = ((⟨["id", "name"], [[Value.num 2, Value.null]]⟩ : DataFrame).colVals "name").map
          (fun v => if v = Value.null then Value.str "N/A" else v)) := by
  constructor
  · exact C6_join_naming_and_fill.1 "name" ["name"]
  · exact C6_join_naming_and_fill.2.2.2 ⟨["id", "name"], [[Value.num 2, Value.null]]⟩
      "name" "N/A" (by decide) (by decide)

/-! ### C10: empty or None input is returned unchanged -/

/-- C10: each of the three pipeline engines returns a `None` dataset, or a
zero-row dataset, unchanged without consulting its configuration. -/
theorem C10_empty_input_identity :
    ∀ (frows : List FilterRow) (srows : List SortRow) (ccfg : ColumnsCfg),
      apply_filters frows none = .ok none
      ∧ apply_sorts srows none = none
      ∧ apply_columns ccfg none = none
      ∧ ∀ df : DataFrame, df.rows = [] →
          apply_filters frows (some df) = .ok (some df)
          ∧ apply_sorts srows (some df) = some df
          ∧ apply_columns ccfg (some df) = some df := by
  intro frows srows ccfg
  refine ⟨rfl, rfl, rfl, ?_⟩
  intro df h
  have he : df.isEmptyDf = true := by simp [DataFrame.isEmptyDf, h]
  refine ⟨?_, ?_, ?_⟩
  · show (if df.isEmptyDf then Except.ok (some df) else _) = Except.ok (some df)
    rw [he]
    rfl
  · show (if df.isEmptyDf then some df else _) = some df
    rw [he]
    rfl
  · show (if df.isEmptyDf then some df else _) = some df
    rw [he]
    rfl

/-- Witness for C10: a dataset with a column but no rows passes through all
three engines unchanged even under nontrivial configurations. -/
theorem C10_empty_input_identity_witness :
    apply_filters [⟨"", "A", ">", "1", ""⟩] (some ⟨["A"], []⟩) = .ok (some ⟨["A"], []⟩)
    ∧ apply_sorts [⟨"", "A", "Descending"⟩] (some ⟨["A"], []⟩) = some ⟨["A"], []⟩
    ∧ apply_columns ⟨["A"], [("A", false)], true, "A"⟩ (some ⟨["A"], []⟩)
        = some ⟨["A"], []⟩ :=
  (C10_empty_input_identity [⟨"", "A", ">", "1", ""⟩] [⟨"", "A", "Descending"⟩]
    ⟨["A"], [("A", false)], true, "A"⟩).2.2.2 ⟨["A"], []⟩ rfl

/-! ### C5: config round-trips -/

theorem filters_load_foldl : ∀ (cfg rs : List FilterRow),
    cfg.foldl (fun a f => filtersAddRow a (some f)) rs = rs ++ cfg := by
  intro cfg
  induction cfg with
  | nil => intro rs; simp
  | cons f fs ih =>
    intro rs
    show fs.foldl _ (filtersAddRow rs (some f)) = rs ++ f :: fs
    rw [ih (filtersAddRow rs (some f))]
    simp [filtersAddRow]

theorem sorts_load_foldl : ∀ (cfg : List (String × String × String)) (rs : List SortRow),
    rs ≠ [] →
    cfg.foldl (fun a t => sortsAddRow a (some t)) rs
      = rs ++ cfg.map (fun t => (⟨(normSortTriple t).fst, (normSortTriple t).snd.fst,
          (normSortTriple t).snd.snd⟩ : SortRow)) := by
  intro cfg
  induction cfg with
  | nil => intro rs _; simp
  | cons t ts ih =>
    intro rs hrs
    obtain ⟨j, c, o⟩ := t
    show ts.foldl _ (sortsAddRow rs (some (j, c, o))) = _
    have hlen : rs.length ≠ 0 := fun h => hrs (List.eq_nil_of_length_eq_zero h)
    have hadd : sortsAddRow rs (some (j, c, o))
        = rs ++ [⟨if j = "AND" ∨ j = "OR" then j else "AND", c,
                  if o = "Ascending" ∨ o = "Descending" then o else "Ascending"⟩] := by
      show rs ++ [⟨if rs.length = 0 then "" else _, _, _⟩] = _
      rw [if_neg hlen]
    rw [hadd, ih _ (by simp)]
    simp [normSortTriple]

/-- C5 counterexample: loading a one-row filter config and reading it back
does not return the config — a blank leading row is added. -/
theorem C5_roundtrip_counterexample :
    filtersGetConfig (filtersLoadConfig [⟨"", "A", "==", "5", ""⟩])
      ≠ [⟨"", "A", "==", "5", ""⟩] := by
  decide

/-- C5 amended: reading back a loaded filter or sort config returns the
config's rows preceded by one blank default row (with sort joins/orders
normalized to their UI fallbacks); the column config round-trips exactly. -/
theorem C5_roundtrip_amended :
    ∀ (cfgF : List FilterRow) (cfgS : List (String × String × String))
      (st cfgC : ColumnsCfg),
      filtersGetConfig (filtersLoadConfig cfgF) = blankFilterRow :: cfgF
      ∧ sortsGetConfig (sortsLoadConfig cfgS)
          = ("", "", "Ascending") :: cfgS.map normSortTriple
      ∧ columnsGetConfig (columnsLoadConfig st cfgC) = cfgC := by
  intro cfgF cfgS st cfgC
  refine ⟨?_, ?_, rfl⟩
  · show cfgF.foldl (fun a f => filtersAddRow a (some f)) (filtersAddRow [] none)
        = blankFilterRow :: cfgF
    rw [filters_load_foldl]
    rfl
  · show sortsGetConfig (cfgS.foldl (fun a t => sortsAddRow a (some t)) (sortsAddRow [] none))
        = ("", "", "Ascending") :: cfgS.map normSortTriple
    rw [sorts_load_foldl cfgS (sortsAddRow [] none) (by simp [sortsAddRow])]
    show List.map _ ((⟨"", "", "Ascending"⟩ : SortRow) :: _) = _
    simp [sortsGetConfig, normSortTriple]

/-! ### C2: relational operators on non-numeric literals -/

/-- C2 counterexample: the filter `A > "b"` on string data selects the row
`"c"` — the code falls back to lexicographic string comparison, it does not
produce an all-false mask. -/
theorem C2_nonnumeric_relational_counterexample :
    apply_filters [⟨"", "A", ">", "b", ""⟩]
        (some ⟨["A"], [[Value.str "a"], [Value.str "c"]]⟩)
      = .ok (some ⟨["A"], [[Value.str "c"]]⟩)
    ∧ parseRat? "b" = none := by
  constructor
  · rfl
  · rfl

/-- C2 amended: when the literal value of a filter row does not parse as a
number (and is not the column-average sentinel), every operator of `OPS` —
including `>`, `<`, `>=`, `<=` — is evaluated as an elementwise
lexicographic string comparison of the column cast to string against the
literal; the mask is not all-false. -/
theorem C2_nonnumeric_relational_amended (df : DataFrame) (r : FilterRow)
    (h1 : r.col ≠ "") (h2 : r.col ∈ df.cols)
    (h3 : r.op = ">" ∨ r.op = "<" ∨ r.op = ">=" ∨ r.op = "<=")
    (h4 : parseRat? r.val = none)
    (h5 : strLower r.val ≠ "column average")
    (h6 : df.isEmptyDf = false) :
    rowMask df r = .ok ((df.colVals r.col).map (fun v => opEvalStr r.op (castStr v) r.val))
    ∧ apply_filters [r] (some df)
        = .ok (some ⟨df.cols, selectRows df.rows
            ((df.colVals r.col).map (fun v => opEvalStr r.op (castStr v) r.val))⟩) := by
  have hco : COLUMN_OPS.contains r.op = false := by
    rcases h3 with h | h | h | h <;> rw [h] <;> rfl
  have hops : OPS.contains r.op = true := by
    rcases h3 with h | h | h | h <;> rw [h] <;> rfl
  have hcontains : r.op ≠ "contains" := by
    rcases h3 with h | h | h | h <;> rw [h] <;> decide
  have hin : r.op ≠ "in" := by
    rcases h3 with h | h | h | h <;> rw [h] <;> decide
  have hmask : rowMask df r
      = .ok ((df.colVals r.col).map (fun v => opEvalStr r.op (castStr v) r.val)) := by
    unfold rowMask
    have hnc : ¬(COLUMN_OPS.contains r.op = true ∧ df.cols.contains r.cmp = true) := by
      intro hand
      rw [hco] at hand
      exact Bool.false_ne_true hand.1
    rw [if_neg hnc, if_neg hcontains, if_neg hin, if_neg h5, if_pos hops, h4]
  refine ⟨hmask, ?_⟩
  have hcc : df.cols.contains r.col = true := contains_iff.mpr h2
  show (if df.isEmptyDf then _ else _) = _
  rw [h6]
  show (match buildMasks df [r] with
        | .error e => Except.error e
        | .ok [] => .ok (some df)
        | .ok ((m0, _) :: rest) =>
            .ok (some ⟨df.cols, selectRows df.rows (combineMasks m0 rest)⟩)) = _
  have hbm : buildMasks df [r]
      = .ok [((df.colVals r.col).map (fun v => opEvalStr r.op (castStr v) r.val), r.join)] := by
    unfold buildMasks
    rw [if_neg (by simp [hcc]; exact ⟨h1, h2⟩)]
    rw [hmask]
    rfl
  rw [hbm]
  rfl

/-- Witness for C2 at a concrete input: `A > "b"` with non-numeric literal
evaluates as a string comparison and selects the lexicographically larger
row. -/
theorem C2_nonnumeric_relational_witness :
    rowMask ⟨["A"], [[Value.str "a"], [Value.str "c"]]⟩ ⟨"", "A", ">", "b", ""⟩
      = .ok [false, true]
    ∧ apply_filters [⟨"", "A", ">", "b", ""⟩]
        (some ⟨["A"], [[Value.str "a"], [Value.str "c"]]⟩)
      = .ok (some ⟨["A"], selectRows [[Value.str "a"], [Value.str "c"]] [false, true]⟩) := by
  have h := C2_nonnumeric_relational_amended ⟨["A"], [[Value.str "a"], [Value.str "c"]]⟩
    ⟨"", "A", ">", "b", ""⟩ (by decide) (by decide) (by decide) (by decide) (by decide)
    (by decide)
  exact ⟨by rw [h.1]; rfl, by rw [h.2]; rfl⟩

/-! ### C8: the `contains` operator -/

/-- C8 counterexample: `contains "a.b"` selects the cell `"axb"` — the
literal is interpreted as a regular-expression pattern, not as a plain
substring; moreover a null cell is selected by `contains "nan"` because
`astype(str)` renders null as "nan". -/
theorem C8_contains_counterexample :
    apply_filters [⟨"", "A", "contains", "a.b", ""⟩]
        (some ⟨["A"], [[Value.str "axb"]]⟩)
      = .ok (some ⟨["A"], [[Value.str "axb"]]⟩)
    ∧ plainSubstr (strLower "a.b") (strLower "axb") = false
    ∧ apply_filters [⟨"", "A", "contains", "nan", ""⟩]
        (some ⟨["A"], [[Value.null]]⟩)
      = .ok (some ⟨["A"], [[Value.null]]⟩)
    ∧ claimContainsMask "nan" Value.null = false := by
  refine ⟨rfl, by decide, rfl, rfl⟩

/-- C8 amended: `contains` selects exactly the rows whose cell, cast to a
string (null renders as "nan"), matches the literal as a case-insensitive
regular-expression search; in particular the literal IS interpreted as a
pattern, and null cells can be selected. -/
theorem C8_contains_amended (df : DataFrame) (r : FilterRow)
    (h1 : r.col ≠ "") (h2 : r.col ∈ df.cols) (h3 : r.op = "contains")
    (h6 : df.isEmptyDf = false) :
    apply_filters [r] (some df)
      = .ok (some ⟨df.cols, selectRows df.rows
          ((df.colVals r.col).map (fun v => reSearch (strLower r.val) (strLower (castStr v))))⟩)
    ∧ castStr Value.null = "nan" := by
  have hco : COLUMN_OPS.contains r.op = false := by rw [h3]; rfl
  have hmask : rowMask df r
      = .ok ((df.colVals r.col).map (fun v => reSearch (strLower r.val) (strLower (castStr v)))) := by
    unfold rowMask
    have hnc : ¬(COLUMN_OPS.contains r.op = true ∧ df.cols.contains r.cmp = true) := by
      intro hand
      rw [hco] at hand
      exact Bool.false_ne_true hand.1
    rw [if_neg hnc, if_pos h3]
  have hcc : df.cols.contains r.col = true := contains_iff.mpr h2
  constructor
  · show (if df.isEmptyDf then _ else _) = _
    rw [h6]
    show (match buildMasks df [r] with
          | .error e => Except.error e
          | .ok [] => .ok (some df)
          | .ok ((m0, _) :: rest) =>
              .ok (some ⟨df.cols, selectRows df.rows (combineMasks m0 rest)⟩)) = _
    have hbm : buildMasks df [r]
        = .ok [((df.colVals r.col).map
            (fun v => reSearch (strLower r.val) (strLower (castStr v))), r.join)] := by
      unfold buildMasks
      rw [if_neg (by simp [hcc]; exact ⟨h1, h2⟩)]
      rw [hmask]
      rfl
    rw [hbm]
    rfl
  · rfl

/-- Witness for C8: on a concrete dataset the regex-search mask describes
exactly the selected rows. -/
theorem C8_contains_witness :
    apply_filters [⟨"", "A", "contains", "a.b", ""⟩]
        (some ⟨["A"], [[Value.str "axb"], [Value.str "zzz"]]⟩)
      = .ok (some ⟨["A"], selectRows [[Value.str "axb"], [Value.str "zzz"]]
          (((⟨["A"], [[Value.str "axb"], [Value.str "zzz"]]⟩ : DataFrame).colVals "A").map
            (fun v => reSearch (strLower "a.b") (strLower (castStr v))))⟩)
    ∧ castStr Value.null = "nan" :=
  C8_contains_amended ⟨["A"], [[Value.str "axb"], [Value.str "zzz"]]⟩
    ⟨"", "A", "contains", "a.b", ""⟩ (by decide) (by decide) rfl (by decide)

/-! ### C7: handling of invalid filter rows -/

theorem buildMasks_skips_invalid (df : DataFrame) :
    ∀ frows : List FilterRow,
      buildMasks df frows
        = buildMasks df (frows.filter (fun r => !(r.col = "") && df.cols.contains r.col)) := by
  intro frows
  induction frows with
  | nil => rfl
  | cons r rs ih =>
    by_cases h : r.col = "" ∨ ¬ df.cols.contains r.col
    · have hf : (!(r.col = "") && df.cols.contains r.col) = false := by
        rcases h with h | h
        · simp [h]
        · simp only [Bool.and_eq_false_iff]
          right
          simpa using h
      show (if r.col = "" ∨ ¬ df.cols.contains r.col then buildMasks df rs else _) = _
      rw [if_pos h, List.filter_cons, hf]
      exact ih
    · have hf : (!(r.col = "") && df.cols.contains r.col) = true := by
        push_neg at h
        simp only [Bool.and_eq_true, Bool.not_eq_true']
        exact ⟨by simpa using h.1, h.2⟩
      show (if r.col = "" ∨ ¬ df.cols.contains r.col then _ else _) = _
      rw [if_neg h, List.filter_cons, hf]
      show _ = (if r.col = "" ∨ ¬ df.cols.contains r.col then _ else _)
      rw [if_neg h]
      cases rowMask df r with
      | error e => rfl
      | ok m =>
        show (match buildMasks df rs with
              | .error e => Except.error e
              | .ok rest => .ok ((m, r.join) :: rest))
            = (match buildMasks df (rs.filter _) with
              | .error e => Except.error e
              | .ok rest => .ok ((m, r.join) :: rest))
        rw [ih]

theorem buildMasks_all_invalid (df : DataFrame) :
    ∀ frows : List FilterRow,
      (∀ r ∈ frows, r.col = "" ∨ ¬ df.cols.contains r.col) →
      buildMasks df frows = .ok [] := by
  intro frows
  induction frows with
  | nil => intro _; rfl
  | cons r rs ih =>
    intro h
    show (if r.col = "" ∨ ¬ df.cols.contains r.col then buildMasks df rs else _) = _
    rw [if_pos (h r (by simp))]
    exact ih (fun r2 h2 => h r2 (by simp [h2]))

/-- C7 counterexample: a filter row whose operator is unrecognized is not
silently skipped — `apply_filters` raises (the `KeyError` of `OPS[op]`). -/
theorem C7_invalid_rows_counterexample :
    apply_filters [⟨"", "A", "between", "2", ""⟩] (some ⟨["A"], [[Value.num 1]]⟩)
      = .error "KeyError" := by
  rfl

/-- C7 amended: rows whose column is empty or absent are silently skipped
(the mask loop only sees the valid rows, and a row set with no valid column
leaves the dataset unchanged), but a surviving row whose operator is
unrecognized raises an error instead of being skipped. -/
theorem C7_invalid_rows_amended (df : DataFrame) :
    (∀ frows : List FilterRow,
      buildMasks df frows
        = buildMasks df (frows.filter (fun r => !(r.col = "") && df.cols.contains r.col)))
    ∧ (∀ frows : List FilterRow,
        (∀ r ∈ frows, r.col = "" ∨ ¬ df.cols.contains r.col) →
        apply_filters frows (some df) = .ok (some df))
    ∧ (∀ (r : FilterRow) (rest : List FilterRow),
        r.col ≠ "" → r.col ∈ df.cols →
        COLUMN_OPS.contains r.op = false → r.op ≠ "contains" → r.op ≠ "in" →
        OPS.contains r.op = false →
        rowMask df r = .error "KeyError"
        ∧ (df.isEmptyDf = false →
            apply_filters (r :: rest) (some df) = .error "KeyError")) := by
  refine ⟨buildMasks_skips_invalid df, ?_, ?_⟩
  · intro frows h
    show (if df.isEmptyDf then Except.ok (some df) else _) = _
    by_cases he : df.isEmptyDf
    · rw [if_pos he]
    · rw [if_neg he]
      rw [buildMasks_all_invalid df frows h]
  · intro r rest h1 h2 hcol hcontains hin hops
    have hmask : rowMask df r = .error "KeyError" := by
      unfold rowMask
      have hnc : ¬(COLUMN_OPS.contains r.op = true ∧ df.cols.contains r.cmp = true) := by
        intro hand
        rw [hcol] at hand
        exact Bool.false_ne_true hand.1
      rw [if_neg hnc, if_neg hcontains, if_neg hin]
      by_cases havg : strLower r.val = "column average"
      · rw [if_pos havg, hops]
        rfl
      · rw [if_neg havg, hops]
        rfl
    refine ⟨hmask, ?_⟩
    intro he
    show (if df.isEmptyDf then Except.ok (some df) else _) = _
    rw [he]
    have hskip : ¬(r.col = "" ∨ ¬ df.cols.contains r.col) := by
      push_neg
      exact ⟨h1, contains_iff.mpr h2⟩
    show (match buildMasks df (r :: rest) with
          | .error e => Except.error e
          | .ok [] => .ok (some df)
          | .ok ((m0, _) :: rest2) =>
              .ok (some ⟨df.cols, selectRows df.rows (combineMasks m0 rest2)⟩)) = _
    have hbm : buildMasks df (r :: rest) = .error "KeyError" := by
      show (if r.col = "" ∨ ¬ df.cols.contains r.col then _ else _) = _
      rw [if_neg hskip, hmask]
    rw [hbm]

/-- Witness for C7: a row naming a missing column is skipped (dataset
unchanged), while an unrecognized operator on a present column raises. -/
theorem C7_invalid_rows_witness :
    apply_filters [⟨"", "B", "==", "1", ""⟩] (some ⟨["A"], [[Value.num 1]]⟩)
      = .ok (some ⟨["A"], [[Value.num 1]]⟩)
    ∧ apply_filters [⟨"", "A", "between", "2", ""⟩] (some ⟨["A"], [[Value.num 1]]⟩)
      = .error "KeyError" := by
  constructor
  · exact (C7_invalid_rows_amended ⟨["A"], [[Value.num 1]]⟩).2.1
      [⟨"", "B", "==", "1", ""⟩] (by decide)
  · exact ((C7_invalid_rows_amended ⟨["A"], [[Value.num 1]]⟩).2.2
      ⟨"", "A", "between", "2", ""⟩ [] (by decide) (by decide) (by decide) (by decide)
      (by decide) (by decide)).2 (by decide)

/-! ### C4: column projection -/

theorem dropDuplicates_cols (df : DataFrame) (c : String) :
    (dropDuplicates df c).cols = df.cols := by
  unfold dropDuplicates
  cases colIndex? c df.cols <;> rfl

theorem specDedupe_cols (cfg : ColumnsCfg) (df : DataFrame) :
    (specDedupe cfg df).cols = df.cols := by
  unfold specDedupe
  split
  · exact dropDuplicates_cols df _
  · rfl

/-- C4 counterexample: with every column hidden the code returns the
dataset unchanged (columns intact), while the claim demands a projection
onto the empty column list. -/
theorem C4_columns_counterexample :
    apply_columns ⟨["A"], [("A", false)], false, ""⟩ (some ⟨["A"], [[Value.num 1]]⟩)
      = some ⟨["A"], [[Value.num 1]]⟩
    ∧ (claimApplyColumns ⟨["A"], [("A", false)], false, ""⟩ ⟨["A"], [[Value.num 1]]⟩).cols = []
    ∧ (⟨["A"], [[Value.num 1]]⟩ : DataFrame).cols ≠ [] := by
  refine ⟨rfl, rfl, by decide⟩

/-- C4 amended: dedupe first, then compute the visible list from `order`,
then project — but only when the visible list is non-empty; an empty
visible list leaves the (deduplicated) dataset with all its columns.  The
visible list is a subsequence of `order` whose members are visible and
present. -/
theorem C4_columns_amended (cfg : ColumnsCfg) (df : DataFrame)
    (h : df.isEmptyDf = false) :
    apply_columns cfg (some df) = some (specAmendedColumns cfg df)
    ∧ (specAmendedColumns cfg df).cols
        = (if specVisible cfg df = [] then df.cols else specVisible cfg df)
    ∧ (∀ c ∈ specVisible cfg df,
        visLookup cfg.visible c = true ∧ c ∈ df.cols ∧ c ∈ cfg.order)
    ∧ (specVisible cfg df).Sublist cfg.order := by
  refine ⟨?_, ?_, ?_, List.filter_sublist _⟩
  · show (if df.isEmptyDf then some df else _) = _
    rw [h]
    show (let df1 := if cfg.dedupeEnabled ∧ cfg.dedupeColumn ≠ ""
                        ∧ df.cols.contains cfg.dedupeColumn
                     then dropDuplicates df cfg.dedupeColumn else df
          let visibleCols := cfg.order.filter
            (fun c => visLookup cfg.visible c ∧ df1.cols.contains c)
          if visibleCols ≠ [] then some (project df1 visibleCols) else some df1)
        = some (specAmendedColumns cfg df)
    unfold specAmendedColumns specVisible specDedupe
    by_cases hde : cfg.dedupeEnabled ∧ cfg.dedupeColumn ≠ ""
        ∧ df.cols.contains cfg.dedupeColumn
    · simp only [if_pos hde, dropDuplicates_cols]
      by_cases hv : cfg.order.filter
          (fun c => visLookup cfg.visible c ∧ df.cols.contains c) = []
      · rw [if_neg (by simpa using hv), if_pos hv]
      · rw [if_pos (by simpa using hv), if_neg hv]
    · simp only [if_neg hde]
      by_cases hv : cfg.order.filter
          (fun c => visLookup cfg.visible c ∧ df.cols.contains c) = []
      · rw [if_neg (by simpa using hv), if_pos hv]
      · rw [if_pos (by simpa using hv), if_neg hv]
  · unfold specAmendedColumns
    by_cases hv : specVisible cfg df = []
    · rw [if_pos hv, if_pos hv]
      exact specDedupe_cols cfg df
    · rw [if_neg hv, if_neg hv]
      rfl
  · intro c hc
    unfold specVisible at hc
    rw [List.mem_filter] at hc
    obtain ⟨horder, hp⟩ := hc
    have hand := of_decide_eq_true hp
    exact ⟨hand.1, contains_iff.mp hand.2, horder⟩

/-- Witness for C4: a concrete reorder-and-project instance. -/
theorem C4_columns_amended_witness :
    apply_columns ⟨["B", "A"], [], false, ""⟩
        (some ⟨["A", "B"], [[Value.num 1, Value.num 2]]⟩)
      = some (specAmendedColumns ⟨["B", "A"], [], false, ""⟩
          ⟨["A", "B"], [[Value.num 1, Value.num 2]]⟩)
    ∧ (specAmendedColumns ⟨["B", "A"], [], false, ""⟩
          ⟨["A", "B"], [[Value.num 1, Value.num 2]]⟩).cols
        = (if specVisible ⟨["B", "A"], [], false, ""⟩
              ⟨["A", "B"], [[Value.num 1, Value.num 2]]⟩ = []
           then (⟨["A", "B"], [[Value.num 1, Value.num 2]]⟩ : DataFrame).cols
           else specVisible ⟨["B", "A"], [], false, ""⟩
              ⟨["A", "B"], [[Value.num 1, Value.num 2]]⟩)
    ∧ (∀ c ∈ specVisible ⟨["B", "A"], [], false, ""⟩
          ⟨["A", "B"], [[Value.num 1, Value.num 2]]⟩,
        visLookup (⟨["B", "A"], [], false, ""⟩ : ColumnsCfg).visible c = true
        ∧ c ∈ (⟨["A", "B"], [[Value.num 1, Value.num 2]]⟩ : DataFrame).cols
        ∧ c ∈ (⟨["B", "A"], [], false, ""⟩ : ColumnsCfg).order)
    ∧ (specVisible ⟨["B", "A"], [], false, ""⟩
        ⟨["A", "B"], [[Value.num 1, Value.num 2]]⟩).Sublist
          (⟨["B", "A"], [], false, ""⟩ : ColumnsCfg).order :=
  C4_columns_amended ⟨["B", "A"], [], false, ""⟩
    ⟨["A", "B"], [[Value.num 1, Value.num 2]]⟩ (by decide)

/-! ### C3: sort engine grouping and application order -/

theorem buildGroupsAux_valid (cols : List String) :
    ∀ (rs : List SortRow) (groups : List (List (String × Bool)))
      (cur : List (String × Bool)) (n : Nat),
      cur ≠ [] → (∀ r ∈ rs, r.col ≠ "" ∧ r.col ∈ cols) →
      buildGroupsAux cols (n + 1) rs groups cur = groups ++ specGroupsAux cur rs := by
  intro rs
  induction rs with
  | nil =>
    intro groups cur n hcur _
    show (if cur ≠ [] then groups ++ [cur] else groups) = groups ++ [cur]
    rw [if_pos hcur]
  | cons r rs ih =>
    intro groups cur n hcur hval
    obtain ⟨h1, h2⟩ := hval r (by simp)
    have hrest : ∀ r2 ∈ rs, r2.col ≠ "" ∧ r2.col ∈ cols :=
      fun r2 hm => hval r2 (by simp [hm])
    have hskip : ¬(r.col = "" ∨ ¬ cols.contains r.col) := by
      push_neg
      exact ⟨h1, contains_iff.mpr h2⟩
    show (if r.col = "" ∨ ¬ cols.contains r.col then _ else _) = _
    rw [if_neg hskip]
    have hn : ¬(n + 1 = 0) := by omega
    show (if n + 1 = 0 then _
          else if r.join = "OR" then
            buildGroupsAux cols (n + 1 + 1) rs
              (if cur ≠ [] then groups ++ [cur] else groups) [(r.col, r.ord != "Descending")]
          else buildGroupsAux cols (n + 1 + 1) rs groups
            (cur ++ [(r.col, r.ord != "Descending")]))
        = groups ++ specGroupsAux cur (r :: rs)
    rw [if_neg hn]
    by_cases hj : r.join = "OR"
    · rw [if_pos hj, if_pos hcur]
      rw [ih (groups ++ [cur]) [(r.col, r.ord != "Descending")] (n + 1) (by simp) hrest]
      have hspec : specGroupsAux cur (r :: rs)
          = cur :: specGroupsAux [keyOfSortRow r] rs := by
        show (if r.join = "OR" then cur :: specGroupsAux [keyOfSortRow r] rs
              else specGroupsAux (cur ++ [keyOfSortRow r]) rs)
            = cur :: specGroupsAux [keyOfSortRow r] rs
        rw [if_pos hj]
      rw [hspec, List.append_assoc]
      rfl
    · rw [if_neg hj]
      rw [ih groups (cur ++ [(r.col, r.ord != "Descending")]) (n + 1) (by simp) hrest]
      have hspec : specGroupsAux cur (r :: rs)
          = specGroupsAux (cur ++ [keyOfSortRow r]) rs := by
        show (if r.join = "OR" then cur :: specGroupsAux [keyOfSortRow r] rs
              else specGroupsAux (cur ++ [keyOfSortRow r]) rs)
            = specGroupsAux (cur ++ [keyOfSortRow r]) rs
        rw [if_neg hj]
      rw [hspec]
      rfl

theorem sortGroups_valid (cols : List String) (srows : List SortRow)
    (h : ∀ r ∈ srows, r.col ≠ "" ∧ r.col ∈ cols) :
    sortGroups srows cols = specGroups srows := by
  cases srows with
  | nil => rfl
  | cons r rs =>
    obtain ⟨h1, h2⟩ := h r (by simp)
    have hrest : ∀ r2 ∈ rs, r2.col ≠ "" ∧ r2.col ∈ cols :=
      fun r2 hm => h r2 (by simp [hm])
    have hskip : ¬(r.col = "" ∨ ¬ cols.contains r.col) := by
      push_neg
      exact ⟨h1, contains_iff.mpr h2⟩
    show buildGroupsAux cols 0 (r :: rs) [] [] = specGroups (r :: rs)
    show (if r.col = "" ∨ ¬ cols.contains r.col then buildGroupsAux cols 1 rs [] []
          else if (0 : Nat) = 0 then
            buildGroupsAux cols 1 rs [] ([] ++ [(r.col, r.ord != "Descending")])
          else buildGroupsAux cols 1 rs
            (if ([] : List (List (String × Bool))) ≠ [] then [[]] else [])
            [(r.col, r.ord != "Descending")])
        = specGroups (r :: rs)
    rw [if_neg hskip, if_pos rfl]
    show buildGroupsAux cols (0 + 1) rs [] [keyOfSortRow r] = _
    rw [buildGroupsAux_valid cols rs [] [keyOfSortRow r] 0 (by simp) hrest]
    rfl

theorem sortByGroup_empty_rows (df : DataFrame) (g : List (String × Bool))
    (h : df.rows = []) : sortByGroup df g = df := by
  obtain ⟨cols, rows⟩ := df
  simp only at h
  subst h
  show (⟨cols, List.mergeSort [] _⟩ : DataFrame) = ⟨cols, []⟩
  rw [List.mergeSort_nil]

theorem specApplySorts_empty_rows (srows : List SortRow) (df : DataFrame)
    (h : df.rows = []) : specApplySorts srows df = df := by
  unfold specApplySorts
  generalize specGroups srows = gs
  induction gs with
  | nil => rfl
  | cons g gs ih =>
    show sortByGroup (List.foldr _ df gs) g = df
    rw [ih]
    exact sortByGroup_empty_rows df g h

/-- C3: under valid sort rows the engine partitions the rows into groups
exactly as the claim's grouping rule prescribes and applies the groups
last-to-first with a stable multi-key sort (so the first group is the
outermost key), and the per-key comparison places nulls last in both
directions. -/
theorem C3_sort_engine (df : DataFrame) (srows : List SortRow)
    (h : ∀ r ∈ srows, r.col ≠ "" ∧ r.col ∈ df.cols) :
    apply_sorts srows (some df) = some (specApplySorts srows df)
    ∧ (∀ (asc : Bool) (v : Value), v ≠ Value.null →
        keyOrd asc Value.null v = Ordering.gt ∧ keyOrd asc v Value.null = Ordering.lt) := by
  constructor
  · show (if df.isEmptyDf then some df else _) = _
    by_cases he : df.isEmptyDf = true
    · rw [if_pos he]
      have : specApplySorts srows df = df := by
        unfold DataFrame.isEmptyDf at he
        rcases Bool.or_eq_true_iff.mp he with hr | hc
        · exact specApplySorts_empty_rows srows df (List.isEmpty_iff.mp hr)
        · cases srows with
          | nil => rfl
          | cons r rs =>
            obtain ⟨_, h2⟩ := h r (by simp)
            rw [List.isEmpty_iff.mp hc] at h2
            simp at h2
      rw [this]
    · rw [if_neg he]
      rw [sortGroups_valid df.cols srows h]
      by_cases hg : (specGroups srows).isEmpty = true
      · rw [if_pos hg]
        have hnil : specGroups srows = [] := List.isEmpty_iff.mp hg
        unfold specApplySorts
        rw [hnil]
        rfl
      · rw [if_neg hg]
        unfold specApplySorts
        rw [List.foldl_reverse]
  · intro asc v hv
    cases v with
    | null => exact absurd rfl hv
    | str s => exact ⟨rfl, rfl⟩
    | num q => exact ⟨rfl, rfl⟩

/-- Witness for C3: a two-group (`OR`) sort on a concrete dataset equals
the spec-side last-to-first application. -/
theorem C3_sort_engine_witness :
    apply_sorts [⟨"", "D", "Ascending"⟩, ⟨"OR", "G", "Descending"⟩]
        (some ⟨["D", "G"], [[Value.num 2, Value.str "x"], [Value.num 1, Value.str "y"],
                            [Value.num 2, Value.null], [Value.num 1, Value.str "a"]]⟩)
      = some (specApplySorts [⟨"", "D", "Ascending"⟩, ⟨"OR", "G", "Descending"⟩]
          ⟨["D", "G"], [[Value.num 2, Value.str "x"], [Value.num 1, Value.str "y"],
                        [Value.num 2, Value.null], [Value.num 1, Value.str "a"]]⟩) :=
  (C3_sort_engine ⟨["D", "G"], [[Value.num 2, Value.str "x"], [Value.num 1, Value.str "y"],
      [Value.num 2, Value.null], [Value.num 1, Value.str "a"]]⟩
    [⟨"", "D", "Ascending"⟩, ⟨"OR", "G", "Descending"⟩] (by decide)).1

/-! ### C1: left-merge row preservation -/

theorem dedupeKeepOrder_foldl_general :
    ∀ (l acc : List String), acc.Nodup →
      (l.foldl (fun acc it => if acc.contains it then acc else acc ++ [it]) acc).Nodup
      ∧ (∀ x, x ∈ l.foldl (fun acc it => if acc.contains it then acc else acc ++ [it]) acc
            ↔ x ∈ acc ∨ x ∈ l) := by
  intro l
  induction l with
  | nil =>
    intro acc h
    exact ⟨h, fun x => by simp⟩
  | cons it ls ih =>
    intro acc h
    simp only [List.foldl_cons]
    by_cases hc : acc.contains it = true
    · rw [if_pos hc]
      obtain ⟨hn, hm⟩ := ih acc h
      refine ⟨hn, fun x => ?_⟩
      rw [hm x]
      constructor
      · rintro (hx | hx)
        · exact Or.inl hx
        · exact Or.inr (by simp [hx])
      · rintro (hx | hx)
        · exact Or.inl hx
        · rcases List.mem_cons.mp hx with hx | hx
          · subst hx
            exact Or.inl (contains_iff.mp hc)
          · exact Or.inr hx
    · rw [if_neg hc]
      have hnotin : it ∉ acc := fun hm => hc (contains_iff.mpr hm)
      have hacc2 : (acc ++ [it]).Nodup := by
        rw [List.nodup_append]
        exact ⟨h, List.nodup_singleton it, by simpa using hnotin⟩
      obtain ⟨hn, hm⟩ := ih (acc ++ [it]) hacc2
      refine ⟨hn, fun x => ?_⟩
      rw [hm x]
      constructor
      · rintro (hx | hx)
        · rcases List.mem_append.mp hx with hx | hx
          · exact Or.inl hx
          · rw [List.mem_singleton] at hx
            exact Or.inr (by simp [hx])
        · exact Or.inr (by simp [hx])
      · rintro (hx | hx)
        · exact Or.inl (by simp [hx])
        · rcases List.mem_cons.mp hx with hx | hx
          · exact Or.inl (by simp [hx])
          · exact Or.inr hx

theorem dedupeKeepOrder_nodup (l : List String) : (dedupeKeepOrder l).Nodup :=
  (dedupeKeepOrder_foldl_general l [] List.nodup_nil).1

theorem mem_dedupeKeepOrder {l : List String} {x : String} :
    x ∈ dedupeKeepOrder l ↔ x ∈ l := by
  unfold dedupeKeepOrder
  rw [(dedupeKeepOrder_foldl_general l [] List.nodup_nil).2 x]
  simp

theorem dedupeKeepOrder_of_nodup : ∀ (l : List String), l.Nodup → dedupeKeepOrder l = l := by
  have haux : ∀ (l acc : List String), (∀ x ∈ l, x ∉ acc) → l.Nodup →
      l.foldl (fun acc it => if acc.contains it then acc else acc ++ [it]) acc = acc ++ l := by
    intro l
    induction l with
    | nil => intro acc _ _; simp
    | cons it ls ih =>
      intro acc hdisj hnd
      have hc : acc.contains it = false := by
        cases hcc : acc.contains it with
        | false => rfl
        | true => exact absurd (contains_iff.mp hcc) (hdisj it (by simp))
      show ls.foldl _ (if acc.contains it then acc else acc ++ [it]) = acc ++ it :: ls
      rw [hc]
      show ls.foldl _ (acc ++ [it]) = acc ++ it :: ls
      rw [ih (acc ++ [it]) ?_ (List.Nodup.of_cons hnd)]
      · simp
      · intro x hx
        rw [List.mem_append]
        rintro (hmem | hmem)
        · exact hdisj x (by simp [hx]) hmem
        · rw [List.mem_singleton] at hmem
          subst hmem
          exact (List.nodup_cons.mp hnd).1 hx
  intro l h
  have := haux l [] (by simp) h
  simpa [dedupeKeepOrder] using this

theorem colIndex?_append_left : ∀ (l1 l2 : List String) (c : String) (i : Nat),
    colIndex? c l1 = some i → colIndex? c (l1 ++ l2) = some i := by
  intro l1
  induction l1 with
  | nil => intro l2 c i h; simp [colIndex?] at h
  | cons a l1 ih =>
    intro l2 c i h
    rw [colIndex?] at h
    show colIndex? c (a :: (l1 ++ l2)) = some i
    rw [colIndex?]
    by_cases hac : a = c
    · rw [if_pos hac] at h ⊢
      exact h
    · rw [if_neg hac] at h ⊢
      cases hcl : colIndex? c l1 with
      | none => rw [hcl] at h; simp at h
      | some j =>
        rw [hcl] at h
        rw [ih l2 c j hcl]
        exact h

theorem filter_eq_length_le_one {α β : Type} [DecidableEq β]
    (f : α → β) (t : β) : ∀ (l : List α), (l.map f).Nodup →
    (l.filter (fun x => f x = t)).length ≤ 1 := by
  intro l
  induction l with
  | nil => intro _; simp
  | cons a l ih =>
    intro h
    rw [List.map_cons, List.nodup_cons] at h
    obtain ⟨hnotin, hnd⟩ := h
    rw [List.filter_cons]
    by_cases hp : f a = t
    · rw [if_pos (by simpa using hp)]
      have hnil : l.filter (fun x => f x = t) = [] := by
        rw [List.filter_eq_nil_iff]
        intro x hx
        simp only [decide_eq_true_eq]
        intro hfx
        apply hnotin
        rw [hp, ← hfx]
        exact List.mem_map_of_mem f hx
      rw [hnil]
      simp
    · rw [if_neg (by simpa using hp)]
      exact ih hnd

theorem setNullAt_take : ∀ (r : List Value) (i w : Nat) (fv : Value), w ≤ i →
    (setNullAt i fv r).take w = r.take w := by
  intro r
  induction r with
  | nil =>
    intro i w fv _
    cases i <;> rfl
  | cons v vs ih =>
    intro i w fv hw
    cases i with
    | zero =>
      have : w = 0 := by omega
      subst this
      rfl
    | succ i' =>
      cases w with
      | zero => rfl
      | succ w' =>
        show (v :: setNullAt i' fv vs).take (w' + 1) = (v :: vs).take (w' + 1)
        simp only [List.take_succ_cons]
        rw [ih i' w' fv (by omega)]

theorem map_renFun_id (rm : List (String × String)) :
    ∀ (ks : List String), (∀ k ∈ ks, ∀ p ∈ rm, p.1 ≠ k) →
      ks.map (fun c => (((rm.find? (fun p => p.1 = c)).map Prod.snd).getD c)) = ks := by
  intro ks h
  apply List.map_congr_left ?_ |>.trans (List.map_id ks)
  intro k hk
  have hnone : rm.find? (fun p => p.1 = k) = none := by
    rw [List.find?_eq_none]
    intro p hp
    simp only [decide_eq_true_eq]
    exact h k hk p hp
  rw [hnone]
  rfl

theorem cellOf_key_aligned (kd lvcR lvcS : List String) (g : String → Value)
    (k : String) (hk : k ∈ kd) :
    cellOf (kd ++ lvcR) ((kd ++ lvcS).map g) k = g k := by
  obtain ⟨i, hidx, hlen⟩ := colIndex?_of_mem kd k hk
  have hidx2 : colIndex? k (kd ++ lvcR) = some i := colIndex?_append_left _ _ _ _ hidx
  unfold cellOf
  rw [hidx2]
  have hget : (kd ++ lvcS).get? i = some k := by
    rw [List.get?_append hlen]
    exact colIndex?_get kd k i hidx
  show (((kd ++ lvcS).map g).get? i).getD Value.null = g k
  rw [List.get?_map, hget]
  rfl

theorem keyTuple_aligned (kd lvcR lvcS : List String) (g : String → Value) :
    keyTuple (kd ++ lvcR) kd ((kd ++ lvcS).map g) = kd.map g := by
  unfold keyTuple
  apply List.map_congr_left
  intro k hk
  exact cellOf_key_aligned kd lvcR lvcS g k hk

theorem flatMap_rows_shape (w : Nat) (hfun : List Value → List (List Value))
    (hone : ∀ r, r.length = w → (hfun r).length = 1)
    (htake : ∀ r, r.length = w → ∀ x ∈ hfun r, x.take w = r) :
    ∀ rows : List (List Value), (∀ r ∈ rows, r.length = w) →
      (rows.flatMap hfun).length = rows.length
      ∧ (rows.flatMap hfun).map (fun x => x.take w) = rows := by
  intro rows
  induction rows with
  | nil => intro _; exact ⟨rfl, rfl⟩
  | cons r rest ih =>
    intro h
    obtain ⟨hl, hm⟩ := ih (fun x hx => h x (by simp [hx]))
    have hr : r.length = w := h r (by simp)
    rw [List.flatMap_cons]
    constructor
    · rw [List.length_append, hone r hr, hl]
      exact Nat.add_comm 1 rest.length
    · rw [List.map_append, hm]
      obtain ⟨x, hx⟩ := List.length_eq_one.mp (hone r hr)
      rw [hx]
      show x.take w :: rest = r :: rest
      rw [htake r hr x (by simp [hx])]

theorem dropFold_self (kd : List String) : ∀ (m : DataFrame),
    (List.zip kd kd).foldl
      (fun m p => if p.1 ≠ p.2 ∧ m.cols.contains p.1 then dropColumn m p.1 else m) m = m := by
  induction kd with
  | nil => intro m; rfl
  | cons a l ih =>
    intro m
    rw [List.zip_cons_cons, List.foldl_cons]
    have : (if a ≠ a ∧ m.cols.contains a then dropColumn m a else m) = m := by
      rw [if_neg (fun h => h.1 rfl)]
    rw [this]
    exact ih m

theorem fillColumn_take (df : DataFrame) (c : String) (fv : Value)
    (mainCols rest : List String) (h1 : df.cols = mainCols ++ rest) (h2 : c ∉ mainCols) :
    (fillColumn df c fv).rows.map (fun r => r.take mainCols.length)
      = df.rows.map (fun r => r.take mainCols.length) := by
  unfold fillColumn
  cases hidx : colIndex? c df.cols with
  | none => rfl
  | some i =>
    have hi : mainCols.length ≤ i := by
      rw [h1, colIndex?_append_right mainCols rest c h2] at hidx
      cases hrest : colIndex? c rest with
      | none => rw [hrest] at hidx; simp at hidx
      | some j =>
        rw [hrest] at hidx
        have : j + mainCols.length = i := by
          have h3 : some (j + mainCols.length) = some i := hidx
          injection h3
        omega
    show (df.rows.map (setNullAt i fv)).map (fun r => r.take mainCols.length) = _
    rw [List.map_map]
    apply List.map_congr_left
    intro r _
    exact setNullAt_take r i mainCols.length fv hi

theorem applyFill_shape : ∀ (added : List String) (m : DataFrame) (f : String)
    (mainCols rest : List String), m.cols = mainCols ++ rest →
    (∀ n ∈ added, n ∉ mainCols) →
    (applyFill m added f).rows.length = m.rows.length
    ∧ (applyFill m added f).rows.map (fun r => r.take mainCols.length)
        = m.rows.map (fun r => r.take mainCols.length) := by
  intro added
  induction added with
  | nil => intro m f mainCols rest _ _; exact ⟨rfl, rfl⟩
  | cons c cs ih =>
    intro m f mainCols rest hcols hnot
    show (applyFill (if m.cols.contains c then fillColumn m c (Value.str f) else m) cs f).rows.length = _
      ∧ (applyFill (if m.cols.contains c then fillColumn m c (Value.str f) else m) cs f).rows.map _ = _
    by_cases hc : m.cols.contains c = true
    · rw [if_pos hc]
      have hcols2 : (fillColumn m c (Value.str f)).cols = mainCols ++ rest := by
        rw [fillColumn_cols, hcols]
      obtain ⟨ihl, ihm⟩ := ih (fillColumn m c (Value.str f)) f mainCols rest hcols2
        (fun n hn => hnot n (by simp [hn]))
      refine ⟨?_, ?_⟩
      · rw [ihl, fillColumn_rows_length]
      · rw [ihm, fillColumn_take m c (Value.str f) mainCols rest hcols
          (hnot c (by simp))]
    · rw [if_neg hc]
      exact ih m f mainCols rest hcols (fun n hn => hnot n (by simp [hn]))

theorem leftMerge_shape (main look2 : DataFrame) (kd : List String)
    (hnodup2 : (look2.rows.map (keyTuple look2.cols kd)).Nodup)
    (hwf : ∀ r ∈ main.rows, r.length = main.cols.length) :
    (leftMerge main look2 kd kd).rows.length = main.rows.length
    ∧ (leftMerge main look2 kd kd).rows.map (fun r => r.take main.cols.length)
        = main.rows := by
  have h := flatMap_rows_shape main.cols.length
    (fun r =>
      if (look2.rows.filter
            (fun lr => keyTuple look2.cols kd lr = keyTuple main.cols kd r)).isEmpty
      then [r ++ (look2.cols.filter (fun c =>
              ¬ ((List.zip kd kd).filterMap
                  (fun p => if p.1 = p.2 then some p.1 else none)).contains c)).map
            (fun _ => Value.null)]
      else (look2.rows.filter
             (fun lr => keyTuple look2.cols kd lr = keyTuple main.cols kd r)).map
            (fun lr => r ++ (look2.cols.filter (fun c =>
              ¬ ((List.zip kd kd).filterMap
                  (fun p => if p.1 = p.2 then some p.1 else none)).contains c)).map
              (cellOf look2.cols lr)))
    (by
      intro r _
      beta_reduce
      by_cases hms : (look2.rows.filter
          (fun lr => keyTuple look2.cols kd lr = keyTuple main.cols kd r)).isEmpty = true
      · rw [if_pos hms]
        rfl
      · rw [if_neg hms]
        rw [List.length_map]
        have hle := filter_eq_length_le_one (keyTuple look2.cols kd)
          (keyTuple main.cols kd r) look2.rows hnodup2
        have hne : look2.rows.filter
            (fun lr => keyTuple look2.cols kd lr = keyTuple main.cols kd r) ≠ [] := by
          intro hnil
          exact hms (by rw [hnil]; rfl)
        have hpos := List.length_pos.mpr hne
        omega)
    (by
      intro r hr x hx
      beta_reduce at hx
      by_cases hms : (look2.rows.filter
          (fun lr => keyTuple look2.cols kd lr = keyTuple main.cols kd r)).isEmpty = true
      · rw [if_pos hms, List.mem_singleton] at hx
        subst hx
        rw [← hr]
        exact List.take_left _ _
      · rw [if_neg hms, List.mem_map] at hx
        obtain ⟨lr, _, hx2⟩ := hx
        subst hx2
        rw [← hr]
        exact List.take_left _ _)
    main.rows hwf
  exact h

/-- C1 counterexample: one main row with key 1, a lookup with two rows for
key 1 — the pandas left merge emits both matches, so the result has two
rows while the main dataset has one; no single first match wins. -/
theorem C1_join_counterexample :
    vlookupMergeStep ⟨["id"], [[Value.num 1]]⟩
        ⟨["id", "v"], [[Value.num 1, Value.str "X"], [Value.num 1, Value.str "Y"]]⟩
        ["id"] ["id"] ["v"] "" none
      = ⟨["id", "v"], [[Value.num 1, Value.str "X"], [Value.num 1, Value.str "Y"]]⟩
    ∧ (⟨["id"], [[Value.num 1]]⟩ : DataFrame).rows.length = 1 := by
  exact ⟨rfl, rfl⟩

/-- C1 amended: the merge step is a left outer join emitting one result row
per (main row, matching lookup row) pair, in main then lookup source order,
and one all-null-extended row for an unmatched main row.  When the lookup's
key-combinations are pairwise distinct (and main and lookup key names
coincide, the default configuration), every main row is preserved exactly
once: the result has exactly as many rows as the main dataset and each
result row restricted to the main columns is the corresponding main row. -/
theorem C1_join_amended (main look : DataFrame) (mainKeys lookupKeys vals : List String)
    (pfx : String) (fill? : Option String)
    (hkeys : lookupKeys = mainKeys)
    (hnodup : (look.rows.map (keyTuple look.cols (dedupeKeepOrder mainKeys))).Nodup)
    (hwf : ∀ r ∈ main.rows, r.length = main.cols.length) :
    (vlookupMergeStep main look mainKeys lookupKeys vals pfx fill?).rows.length
        = main.rows.length
    ∧ (vlookupMergeStep main look mainKeys lookupKeys vals pfx fill?).rows.map
        (fun r => r.take main.cols.length) = main.rows := by
  rw [hkeys]
  set kd := dedupeKeepOrder mainKeys with hkd
  set lvc := dedupeKeepOrder (vals.filter (fun c => ¬ kd.contains c)) with hlvc
  have hkdn : kd.Nodup := dedupeKeepOrder_nodup _
  have hlvcn : lvc.Nodup := dedupeKeepOrder_nodup _
  have hdisj : ∀ x ∈ lvc, x ∉ kd := by
    intro x hx
    have hmem := mem_dedupeKeepOrder.mp hx
    rw [List.mem_filter] at hmem
    have hp := of_decide_eq_true hmem.2
    exact fun hm => hp (contains_iff.mpr hm)
  have hmc : dedupeKeepOrder (kd ++ lvc) = kd ++ lvc :=
    dedupeKeepOrder_of_nodup _
      (List.Nodup.append hkdn hlvcn (fun a ha hb => hdisj a hb ha))
  set rm := (buildRenameAux pfx main.cols lvc).1 with hrm
  set added := (buildRenameAux pfx main.cols lvc).2 with hadded
  set look2 := renameCols (project look (dedupeKeepOrder (kd ++ lvc))) rm with hlook2
  have hrows2 : look2.rows = look.rows.map (fun r => (kd ++ lvc).map (cellOf look.cols r)) := by
    rw [hlook2, hmc]
    rfl
  have hrmfst : rm.map Prod.fst = lvc := buildRenameAux_keys pfx lvc main.cols
  have hcols2 : look2.cols = kd ++ lvc.map
      (fun c => (((rm.find? (fun p => p.1 = c)).map Prod.snd).getD c)) := by
    rw [hlook2, hmc]
    show (kd ++ lvc).map (fun c => (((rm.find? (fun p => p.1 = c)).map Prod.snd).getD c)) = _
    rw [List.map_append]
    congr 1
    apply map_renFun_id
    intro k hk p hp
    intro hpk
    have : p.1 ∈ lvc := by
      rw [← hrmfst]
      exact List.mem_map_of_mem Prod.fst hp
    rw [hpk] at this
    exact hdisj k this hk
  have hnodup2 : (look2.rows.map (keyTuple look2.cols kd)).Nodup := by
    rw [hrows2, List.map_map]
    have heq : look.rows.map ((keyTuple look2.cols kd) ∘
          (fun r => (kd ++ lvc).map (cellOf look.cols r)))
        = look.rows.map (keyTuple look.cols kd) := by
      apply List.map_congr_left
      intro r _
      show keyTuple look2.cols kd ((kd ++ lvc).map (cellOf look.cols r))
          = keyTuple look.cols kd r
      rw [hcols2]
      exact keyTuple_aligned kd _ lvc (cellOf look.cols r)
    rw [heq]
    exact hnodup
  have hshape := leftMerge_shape main look2 kd hnodup2 hwf
  have hstep : vlookupMergeStep main look mainKeys mainKeys vals pfx fill?
      = (match fill? with
         | some f => applyFill (leftMerge main look2 kd kd) added f
         | none => leftMerge main look2 kd kd) := by
    show (match fill? with
          | some f => applyFill
              ((List.zip kd kd).foldl
                (fun (m : DataFrame) (p : String × String) =>
                  if p.1 ≠ p.2 ∧ m.cols.contains p.1 then dropColumn m p.1 else m)
                (leftMerge main look2 kd kd)) added f
          | none => (List.zip kd kd).foldl
              (fun (m : DataFrame) (p : String × String) =>
                if p.1 ≠ p.2 ∧ m.cols.contains p.1 then dropColumn m p.1 else m)
              (leftMerge main look2 kd kd)) = _
    rw [dropFold_self kd (leftMerge main look2 kd kd)]
  rw [hstep]
  cases fill? with
  | none => exact hshape
  | some f =>
    have hnot : ∀ n ∈ added, n ∉ main.cols := buildRenameAux_not_mem pfx lvc main.cols
    obtain ⟨hfl, hfm⟩ := applyFill_shape added (leftMerge main look2 kd kd) f main.cols
      ((look2.cols.filter (fun c =>
          ¬ ((List.zip kd kd).filterMap
              (fun (p : String × String) => if p.1 = p.2 then some p.1 else none)).contains c)).map
        (fun c => if main.cols.contains c then c ++ "_lk" else c)) rfl hnot
    exact ⟨hfl.trans hshape.1, hfm.trans hshape.2⟩

/-- Witness for C1: the spec's own join example (two main rows, one lookup
match, default fill) — the result has the main dataset's row count and its
main-column part is the main dataset. -/
theorem C1_join_amended_witness :
    (vlookupMergeStep ⟨["id"], [[Value.num 1], [Value.num 2]]⟩
        ⟨["id", "name"], [[Value.num 1, Value.str "X"]]⟩
        ["id"] ["id"] ["name"] "" (some "N/A")).rows.length
      = (⟨["id"], [[Value.num 1], [Value.num 2]]⟩ : DataFrame).rows.length
    ∧ (vlookupMergeStep ⟨["id"], [[Value.num 1], [Value.num 2]]⟩
        ⟨["id", "name"], [[Value.num 1, Value.str "X"]]⟩
        ["id"] ["id"] ["name"] "" (some "N/A")).rows.map
        (fun r => r.take (⟨["id"], [[Value.num 1], [Value.num 2]]⟩ : DataFrame).cols.length)
      = (⟨["id"], [[Value.num 1], [Value.num 2]]⟩ : DataFrame).rows :=
  C1_join_amended ⟨["id"], [[Value.num 1], [Value.num 2]]⟩
    ⟨["id", "name"], [[Value.num 1, Value.str "X"]]⟩
    ["id"] ["id"] ["name"] "" (some "N/A") rfl (by decide) (by decide)

/-! ### C9: the automation entry point -/

theorem apply_filters_blank (cfg : List FilterRow) (df? : Option DataFrame) :
    apply_filters (blankFilterRow :: cfg) df? = apply_filters cfg df? := by
  cases df? with
  | none => rfl
  | some df =>
    show (if df.isEmptyDf then Except.ok (some df) else _)
        = (if df.isEmptyDf then Except.ok (some df) else _)
    by_cases he : df.isEmptyDf = true
    · rw [if_pos he, if_pos he]
    · rw [if_neg he, if_neg he]
      have hb : buildMasks df (blankFilterRow :: cfg) = buildMasks df cfg := by
        show (if blankFilterRow.col = "" ∨ ¬ df.cols.contains blankFilterRow.col
              then buildMasks df cfg else _) = buildMasks df cfg
        rw [if_pos (show blankFilterRow.col = "" ∨ ¬ df.cols.contains blankFilterRow.col
          from Or.inl rfl)]
      rw [hb]

theorem buildGroupsAux_posIrrel (cols : List String) :
    ∀ (l : List SortRow) (groups : List (List (String × Bool)))
      (cur : List (String × Bool)) (i j : Nat),
      buildGroupsAux cols (i + 1) l groups cur = buildGroupsAux cols (j + 1) l groups cur := by
  intro l
  induction l with
  | nil => intro groups cur i j; rfl
  | cons r rs ih =>
    intro groups cur i j
    show (if r.col = "" ∨ ¬ cols.contains r.col
          then buildGroupsAux cols (i + 1 + 1) rs groups cur
          else if i + 1 = 0 then
            buildGroupsAux cols (i + 1 + 1) rs groups (cur ++ [(r.col, r.ord != "Descending")])
          else if r.join = "OR" then
            buildGroupsAux cols (i + 1 + 1) rs (if cur ≠ [] then groups ++ [cur] else groups)
              [(r.col, r.ord != "Descending")]
          else buildGroupsAux cols (i + 1 + 1) rs groups
            (cur ++ [(r.col, r.ord != "Descending")]))
        = (if r.col = "" ∨ ¬ cols.contains r.col
          then buildGroupsAux cols (j + 1 + 1) rs groups cur
          else if j + 1 = 0 then
            buildGroupsAux cols (j + 1 + 1) rs groups (cur ++ [(r.col, r.ord != "Descending")])
          else if r.join = "OR" then
            buildGroupsAux cols (j + 1 + 1) rs (if cur ≠ [] then groups ++ [cur] else groups)
              [(r.col, r.ord != "Descending")]
          else buildGroupsAux cols (j + 1 + 1) rs groups
            (cur ++ [(r.col, r.ord != "Descending")]))
    by_cases hskip : r.col = "" ∨ ¬ cols.contains r.col
    · rw [if_pos hskip, if_pos hskip]
      exact ih groups cur (i + 1) (j + 1)
    · rw [if_neg hskip, if_neg hskip, if_neg (by omega : ¬(i + 1 = 0)),
        if_neg (by omega : ¬(j + 1 = 0))]
      by_cases hj : r.join = "OR"
      · rw [if_pos hj, if_pos hj]
        exact ih _ _ (i + 1) (j + 1)
      · rw [if_neg hj, if_neg hj]
        exact ih _ _ (i + 1) (j + 1)

theorem buildGroupsAux_zero_one (cols : List String) :
    ∀ (l : List SortRow) (groups : List (List (String × Bool))),
      buildGroupsAux cols 0 l groups [] = buildGroupsAux cols 1 l groups [] := by
  intro l
  induction l with
  | nil => intro groups; rfl
  | cons r rs ih =>
    intro groups
    show (if r.col = "" ∨ ¬ cols.contains r.col
          then buildGroupsAux cols 1 rs groups []
          else if (0 : Nat) = 0 then
            buildGroupsAux cols 1 rs groups ([] ++ [(r.col, r.ord != "Descending")])
          else if r.join = "OR" then
            buildGroupsAux cols 1 rs (if ([] : List (String × Bool)) ≠ [] then groups ++ [[]] else groups)
              [(r.col, r.ord != "Descending")]
          else buildGroupsAux cols 1 rs groups ([] ++ [(r.col, r.ord != "Descending")]))
        = (if r.col = "" ∨ ¬ cols.contains r.col
          then buildGroupsAux cols 2 rs groups []
          else if (1 : Nat) = 0 then
            buildGroupsAux cols 2 rs groups ([] ++ [(r.col, r.ord != "Descending")])
          else if r.join = "OR" then
            buildGroupsAux cols 2 rs (if ([] : List (String × Bool)) ≠ [] then groups ++ [[]] else groups)
              [(r.col, r.ord != "Descending")]
          else buildGroupsAux cols 2 rs groups ([] ++ [(r.col, r.ord != "Descending")]))
    by_cases hskip : r.col = "" ∨ ¬ cols.contains r.col
    · rw [if_pos hskip, if_pos hskip]
      exact buildGroupsAux_posIrrel cols rs groups [] 0 1
    · rw [if_neg hskip, if_neg hskip, if_pos rfl, if_neg (by omega : ¬(1 = 0))]
      by_cases hj : r.join = "OR"
      · rw [if_pos hj]
        show buildGroupsAux cols (0 + 1) rs groups [(r.col, r.ord != "Descending")]
            = buildGroupsAux cols (1 + 1) rs
              (if ([] : List (String × Bool)) ≠ [] then groups ++ [[]] else groups)
              [(r.col, r.ord != "Descending")]
        rw [if_neg (by simp)]
        exact buildGroupsAux_posIrrel cols rs groups _ 0 1
      · rw [if_neg hj]
        exact buildGroupsAux_posIrrel cols rs groups _ 0 1

theorem sortGroups_blank (l : List SortRow) (cols : List String) :
    sortGroups ((⟨"", "", "Ascending"⟩ : SortRow) :: l) cols = sortGroups l cols := by
  show buildGroupsAux cols 0 ((⟨"", "", "Ascending"⟩ : SortRow) :: l) [] []
      = buildGroupsAux cols 0 l [] []
  show (if ("" : String) = "" ∨ ¬ cols.contains "" then buildGroupsAux cols 1 l [] []
        else if (0 : Nat) = 0 then buildGroupsAux cols 1 l [] ([] ++ [("", "Ascending" != "Descending")])
        else if ("" : String) = "OR" then
          buildGroupsAux cols 1 l (if ([] : List (String × Bool)) ≠ [] then [[]] else []) [("", "Ascending" != "Descending")]
        else buildGroupsAux cols 1 l [] ([] ++ [("", "Ascending" != "Descending")]))
      = buildGroupsAux cols 0 l [] []
  rw [if_pos (Or.inl rfl)]
  exact (buildGroupsAux_zero_one cols l []).symm

theorem normSortTriple_same_groups (cols : List String) :
    ∀ (cfg : List (String × String × String)) (i : Nat)
      (groups : List (List (String × Bool))) (cur : List (String × Bool)),
      buildGroupsAux cols i (cfg.map (fun t => sortRowOfTriple (normSortTriple t))) groups cur
        = buildGroupsAux cols i (cfg.map sortRowOfTriple) groups cur := by
  intro cfg
  induction cfg with
  | nil => intro i groups cur; rfl
  | cons t ts ih =>
    intro i groups cur
    obtain ⟨j, c, o⟩ := t
    have hord : ((if o = "Ascending" ∨ o = "Descending" then o else "Ascending") != "Descending")
        = (o != "Descending") := by
      by_cases ho : o = "Ascending" ∨ o = "Descending"
      · rw [if_pos ho]
      · rw [if_neg ho]
        have hno : o ≠ "Descending" := fun h => ho (Or.inr h)
        have h1 : (("Ascending" : String) != "Descending") = true := by decide
        have h2 : (o != "Descending") = true := by
          simp [bne, hno]
        rw [h1, h2]
    show (if c = "" ∨ ¬ cols.contains c
          then buildGroupsAux cols (i + 1) (ts.map (fun t => sortRowOfTriple (normSortTriple t))) groups cur
          else if i = 0 then
            buildGroupsAux cols (i + 1) (ts.map (fun t => sortRowOfTriple (normSortTriple t))) groups
              (cur ++ [(c, (if o = "Ascending" ∨ o = "Descending" then o else "Ascending") != "Descending")])
          else if (if j = "AND" ∨ j = "OR" then j else "AND") = "OR" then
            buildGroupsAux cols (i + 1) (ts.map (fun t => sortRowOfTriple (normSortTriple t)))
              (if cur ≠ [] then groups ++ [cur] else groups)
              [(c, (if o = "Ascending" ∨ o = "Descending" then o else "Ascending") != "Descending")]
          else buildGroupsAux cols (i + 1) (ts.map (fun t => sortRowOfTriple (normSortTriple t))) groups
            (cur ++ [(c, (if o = "Ascending" ∨ o = "Descending" then o else "Ascending") != "Descending")]))
        = (if c = "" ∨ ¬ cols.contains c
          then buildGroupsAux cols (i + 1) (ts.map sortRowOfTriple) groups cur
          else if i = 0 then
            buildGroupsAux cols (i + 1) (ts.map sortRowOfTriple) groups (cur ++ [(c, o != "Descending")])
          else if j = "OR" then
            buildGroupsAux cols (i + 1) (ts.map sortRowOfTriple)
              (if cur ≠ [] then groups ++ [cur] else groups) [(c, o != "Descending")]
          else buildGroupsAux cols (i + 1) (ts.map sortRowOfTriple) groups
            (cur ++ [(c, o != "Descending")]))
    rw [hord]
    by_cases hskip : c = "" ∨ ¬ cols.contains c
    · rw [if_pos hskip, if_pos hskip]
      exact ih (i + 1) groups cur
    · rw [if_neg hskip, if_neg hskip]
      by_cases hi : i = 0
      · rw [if_pos hi, if_pos hi]
        exact ih (i + 1) groups _
      · rw [if_neg hi, if_neg hi]
        by_cases hj : j = "OR"
        · have hjn : (if j = "AND" ∨ j = "OR" then j else "AND") = "OR" := by
            rw [if_pos (Or.inr hj)]
            exact hj
          rw [if_pos hjn, if_pos hj]
          exact ih (i + 1) _ _
        · have hjn : (if j = "AND" ∨ j = "OR" then j else "AND") ≠ "OR" := by
            by_cases hja : j = "AND" ∨ j = "OR"
            · rw [if_pos hja]
              exact hj
            · rw [if_neg hja]
              decide
          rw [if_neg hjn, if_neg hj]
          exact ih (i + 1) _ _

theorem apply_sorts_congr_groups (rows1 rows2 : List SortRow) (df? : Option DataFrame)
    (h : ∀ cols, sortGroups rows1 cols = sortGroups rows2 cols) :
    apply_sorts rows1 df? = apply_sorts rows2 df? := by
  cases df? with
  | none => rfl
  | some df =>
    show (if df.isEmptyDf then some df else _) = (if df.isEmptyDf then some df else _)
    by_cases he : df.isEmptyDf = true
    · rw [if_pos he, if_pos he]
    · rw [if_neg he, if_neg he, h df.cols]

theorem apply_sorts_loaded (cfg : List (String × String × String)) (df? : Option DataFrame) :
    apply_sorts (sortsLoadConfig cfg) df? = apply_sorts (cfg.map sortRowOfTriple) df? := by
  apply apply_sorts_congr_groups
  intro cols
  have hload : sortsLoadConfig cfg
      = (⟨"", "", "Ascending"⟩ : SortRow) :: cfg.map (fun t => sortRowOfTriple (normSortTriple t)) := by
    show cfg.foldl (fun rs t => sortsAddRow rs (some t)) (sortsAddRow [] none) = _
    rw [sorts_load_foldl cfg (sortsAddRow [] none) (by simp [sortsAddRow])]
    show (⟨"", "", "Ascending"⟩ : SortRow) :: _ = _
    congr 1
  rw [hload, sortGroups_blank]
  show buildGroupsAux cols 0 (cfg.map (fun t => sortRowOfTriple (normSortTriple t))) [] []
      = buildGroupsAux cols 0 (cfg.map sortRowOfTriple) [] []
  exact normSortTriple_same_groups cols cfg 0 [] []

theorem apply_preset_eq_amended (df : DataFrame) (u : String) (sheets : List PresetSheet) :
    apply_preset_to_df df sheets [("User", u)] = amendedUserSheet df u sheets := by
  cases sheets with
  | nil => rfl
  | cons sc rest =>
    unfold apply_preset_to_df amendedUserSheet
    have hfs : (match sc.filters with
        | some cfg => apply_filters (filtersLoadConfig cfg) (some df)
        | none => Except.ok (some df))
      = (match sc.filters with
        | some cfg => apply_filters cfg (some df)
        | none => Except.ok (some df)) := by
      cases sc.filters with
      | none => rfl
      | some cfg =>
        show apply_filters (filtersLoadConfig cfg) (some df) = apply_filters cfg (some df)
        have hl : filtersLoadConfig cfg = blankFilterRow :: cfg := by
          show cfg.foldl (fun rs f => filtersAddRow rs (some f)) (filtersAddRow [] none)
              = blankFilterRow :: cfg
          rw [filters_load_foldl]
          rfl
        rw [hl]
        exact apply_filters_blank cfg (some df)
    simp only [hfs]
    have hss : ∀ d2 : DataFrame, (match sc.sorts with
        | some cfg => apply_sorts (sortsLoadConfig cfg) (some d2)
        | none => some d2)
      = (match sc.sorts with
        | some cfg => apply_sorts (cfg.map sortRowOfTriple) (some d2)
        | none => some d2) := by
      intro d2
      cases sc.sorts with
      | none => rfl
      | some cfg => exact apply_sorts_loaded cfg (some d2)
    cases hmatch : (match sc.filters with
        | some cfg => apply_filters cfg (some df)
        | none => Except.ok (some df)) with
    | error e => rfl
    | ok d1? =>
      show Except.ok _ = Except.ok _
      simp only [hss]
      rfl

/-- C9 counterexample: with a "Column Average" preset filter, the code's
order (preset filter over the whole dataset first, then the user filter)
omits user u1 entirely, while the claim's order (user filter first) keeps
a one-row sheet for u1. -/
theorem C9_automation_counterexample :
    run_automation_sheets
        ⟨["User", "A"], [[Value.str "u1", Value.num 1], [Value.str "u1", Value.num 100],
                         [Value.str "u2", Value.num 1000]]⟩
        ["u1"] [⟨some [⟨"", "A", ">", "Column Average", ""⟩], none, none⟩]
      = .ok []
    ∧ claimAutomationSheets
        ⟨["User", "A"], [[Value.str "u1", Value.num 1], [Value.str "u1", Value.num 100],
                         [Value.str "u2", Value.num 1000]]⟩
        ["u1"] [⟨some [⟨"", "A", ">", "Column Average", ""⟩], none, none⟩]
      = .ok [("u1", ⟨["User", "A"], [[Value.str "u1", Value.num 100]]⟩)] := by
  constructor
  · rfl
  · rfl

/-- C9 amended: each identifier's sheet is the base dataset run through the
preset's filter first, then the extra equality filter on the identifier,
then the preset's sorts and columns; identifiers whose dataset is empty
after the pipeline are omitted.  (Over the raw preset configuration — the
blank rows installed by the config loaders are behaviourally inert.) -/
theorem C9_automation_amended (df : DataFrame) (users : List String)
    (sheets : List PresetSheet) :
    run_automation_sheets df users sheets = amendedAutomationSheets df users sheets := by
  induction users with
  | nil => rfl
  | cons u us ih =>
    show (match apply_preset_to_df df sheets [("User", u)] with
          | .error e => Except.error e
          | .ok dfu =>
            match run_automation_sheets df us sheets with
            | .error e => Except.error e
            | .ok rest => .ok (if dfu.isEmptyDf then rest else (strTake 31 u, dfu) :: rest))
        = _
    rw [apply_preset_eq_amended df u sheets, ih]
    rfl

end ExcelOps
